import Mathlib

/-!
Formal model of the cf-zitadel-access-operator reconciler.

The definitions below are a shallow embedding of the Go sources:
  * `internal/zitadel/client.go`    — Zitadel Management API adapter
  * `internal/cloudflare/client.go` — Cloudflare Access API adapter
  * `internal/controller/securedapplication.go` — the convergence engine
  * `api/v1alpha1/types.go`         — the SecuredApplication resource

External systems (HTTP remotes, the Kubernetes API server) are modelled as
environments: records of functions from request data to `Except`-valued
results, so that the engine's control flow over those results is embedded
exactly. Side effects of the engine (adapter mutation calls, cluster-object
writes) are reified into a trace of `Call` values.
-/

/-- Outcome of one HTTP exchange, as seen after the transport succeeded:
the status code and the response body. -/
structure HTTPResponse where
  statusCode : Nat
  body : String
  deriving DecidableEq, Repr

/-- Substring test, modelling Go's `strings.Contains`. -/
def strContains (s pat : String) : Bool :=
  decide (pat.toList <:+: s.toList)

namespace Zitadel

/-- `zitadel.Project` (client.go lines 14-17). -/
structure Project where
  id : String
  name : String
  deriving DecidableEq, Repr

/-- `zitadel.Role` (client.go lines 20-23). -/
structure Role where
  key : String
  displayName : String
  deriving DecidableEq, Repr

/-- `zitadel.App` (client.go lines 26-30). -/
structure App where
  id : String
  clientID : String
  clientSecret : String
  deriving DecidableEq, Repr

/-- `zitadel.AppConfig` (client.go lines 33-46). -/
structure AppConfig where
  name : String
  redirectURIs : List String
  postLogoutRedirectURIs : List String
  responseTypes : List String
  grantTypes : List String
  appType : String
  authMethodType : String
  accessTokenType : String
  devMode : Bool
  idTokenRoleAssertion : Bool
  idTokenUserinfoAssertion : Bool
  accessTokenRoleAssertion : Bool
  deriving DecidableEq, Repr

/-- `httpClient.do` (zitadel/client.go lines 73-107): the transport either
fails outright, or yields a response; any status `>= 400` becomes an error
carrying method, path, status and body. -/
def clientDo (method path : String) (resp : Except String HTTPResponse) :
    Except String String :=
  match resp with
  | .error e => .error ("execute request: " ++ e)
  | .ok r =>
    if r.statusCode ≥ 400 then
      .error ("zitadel API " ++ method ++ " " ++ path ++ " returned "
        ++ toString r.statusCode ++ ": " ++ r.body)
    else .ok r.body

/-- One raw element of the project `_search` result list
(zitadel/client.go lines 126-131). -/
structure RawProject where
  id : String
  name : String
  deriving DecidableEq, Repr

/-- `GetProjectByName` (zitadel/client.go lines 109-144), starting from the
decoded search result: an empty result list yields `none` without error,
otherwise the first element is returned. -/
def getProjectByName (search : Except String (List RawProject)) :
    Except String (Option Project) :=
  match search with
  | .error e => .error ("search projects: " ++ e)
  | .ok [] => .ok none
  | .ok (r :: _) => .ok (some ⟨r.id, r.name⟩)

/-- One raw element of the app `_search` result list
(zitadel/client.go lines 188-195): the client ID sits in `oidcConfig`. -/
structure RawApp where
  id : String
  clientID : String
  deriving DecidableEq, Repr

/-- `GetAppByName` (zitadel/client.go lines 170-208), starting from the
decoded search result: empty list yields `none` without error, otherwise
the first element is returned (with no client secret). -/
def getAppByName (search : Except String (List RawApp)) :
    Except String (Option App) :=
  match search with
  | .error e => .error ("search apps: " ++ e)
  | .ok [] => .ok none
  | .ok (r :: _) => .ok (some ⟨r.id, r.clientID, ""⟩)

/-- `UpdateApp` (zitadel/client.go lines 233-245): an error whose message
contains "No changes" (Zitadel's 400 response for an identical config) is
normalized to success. -/
def updateApp (resp : Except String HTTPResponse) (projectID appID : String) :
    Except String Unit :=
  match clientDo "PUT"
      ("/management/v1/projects/" ++ projectID ++ "/apps/" ++ appID ++ "/oidc_config")
      resp with
  | .error e => if strContains e "No changes" then .ok () else .error ("update app: " ++ e)
  | .ok _ => .ok ()

/-- `DeleteApp` (zitadel/client.go lines 247-254): every transport or
status error — a 404 for an already-deleted app included — is propagated. -/
def deleteApp (resp : Except String HTTPResponse) (projectID appID : String) :
    Except String Unit :=
  match clientDo "DELETE"
      ("/management/v1/projects/" ++ projectID ++ "/apps/" ++ appID) resp with
  | .error e => .error ("delete app: " ++ e)
  | .ok _ => .ok ()

end Zitadel

namespace Cloudflare

/-- `cloudflare.AccessApp` (cloudflare/client.go lines 15-18). -/
structure AccessApp where
  id : String
  name : String
  deriving DecidableEq, Repr

/-- `cloudflare.AccessPolicy` (cloudflare/client.go lines 21-23). -/
structure AccessPolicy where
  id : String
  deriving DecidableEq, Repr

/-- `cloudflare.OIDCClaimRule` (cloudflare/client.go lines 26-30). -/
structure OIDCClaimRule where
  identityProviderID : String
  claimName : String
  claimValue : String
  deriving DecidableEq, Repr

/-- The request body `UpsertAccessPolicy` sends
(cloudflare/client.go lines 180-196): fixed name, decision "allow",
precedence 1, and one `oidc` include entry per claim rule, in order. -/
structure PolicyBody where
  name : String
  decision : String
  precedence : Nat
  includeRules : List OIDCClaimRule
  deriving DecidableEq, Repr

/-- `httpClient.do` (cloudflare/client.go lines 66-99): same shape as the
Zitadel transport wrapper; any status `>= 400` becomes an error. -/
def clientDo (method path : String) (resp : Except String HTTPResponse) :
    Except String String :=
  match resp with
  | .error e => .error ("execute request: " ++ e)
  | .ok r =>
    if r.statusCode ≥ 400 then
      .error ("cloudflare API " ++ method ++ " " ++ path ++ " returned "
        ++ toString r.statusCode ++ ": " ++ r.body)
    else .ok r.body

/-- `DeleteAccessApp` (cloudflare/client.go lines 171-177): every transport
or status error — a 404 for an already-deleted application included — is
propagated. -/
def deleteAccessApp (resp : Except String HTTPResponse) (accountID appID : String) :
    Except String Unit :=
  match clientDo "DELETE"
      ("/accounts/" ++ accountID ++ "/access/apps/" ++ appID) resp with
  | .error e => .error ("delete access app: " ++ e)
  | .ok _ => .ok ()

end Cloudflare

/-! ## The SecuredApplication resource (api/v1alpha1/types.go, as used by
`internal/controller/securedapplication.go`) -/

/-- `Access` (types.go lines 43-50). -/
structure Access where
  project : String
  roles : List String
  deriving DecidableEq, Repr

/-- `OIDCConfig` (types.go lines 52-103): per-field overrides for the
generated Zitadel OIDC application. -/
structure OIDCConfig where
  redirectURIs : List String
  postLogoutRedirectURIs : List String
  responseTypes : List String
  grantTypes : List String
  appType : String
  authMethodType : String
  accessTokenType : String
  devMode : Bool
  idTokenRoleAssertion : Bool
  idTokenUserinfoAssertion : Bool
  accessTokenRoleAssertion : Bool
  clientSecretRef : String
  deriving DecidableEq, Repr

/-- `Backend` (types.go lines 114-124). -/
structure Backend where
  serviceName : String
  servicePort : Int
  protocol : String
  deriving DecidableEq, Repr

/-- `IngressConfig` (types.go lines 126-142): overrides for the generated
Ingress. -/
structure IngressConfig where
  className : String
  annotations : List (String × String)
  path : String
  pathType : String
  deriving DecidableEq, Repr

/-- The spec shape consumed by the current controller
(`securedapplication.go` accesses `Spec.Host`, `Spec.Access`, `Spec.OIDC`,
`Spec.Ingress`, `Spec.Backend`, `Spec.DeleteProtection`). -/
structure SecuredApplicationSpec where
  host : String
  access : Access
  oidc : Option OIDCConfig
  ingress : Option IngressConfig
  backend : Backend
  deleteProtection : Bool
  deriving DecidableEq, Repr

/-- `metav1.Condition` as used here: type "Ready", a boolean status
(the controller only ever writes True or False), reason and message.
The timestamp is wall-clock data and is not modelled. -/
structure Condition where
  type : String
  status : Bool
  reason : String
  message : String
  deriving DecidableEq, Repr

/-- `SecuredApplicationStatus` (types.go lines 144-165). -/
structure SecuredApplicationStatus where
  projectID : String
  zitadelAppID : String
  clientID : String
  accessApplicationID : String
  accessPolicyID : String
  ready : Bool
  conditions : List Condition
  deriving DecidableEq, Repr

/-- The SecuredApplication object: metadata the controller reads
(name, namespace, deletion timestamp, finalizers) plus spec and status. -/
structure SecuredApplication where
  name : String
  ns : String
  deletionTimestampIsZero : Bool
  finalizers : List String
  spec : SecuredApplicationSpec
  status : SecuredApplicationStatus
  deriving DecidableEq, Repr

/-- `finalizerName` (securedapplication.go line 25). -/
def finalizerName : String := "access.zitadel.com/finalizer"

/-- `roleClaimName` (securedapplication.go line 29). -/
def roleClaimName : String := "custom:roles"

/-- `cfBackendProtocolAnnotation` (securedapplication.go line 31). -/
def cfBackendProtocolAnnotation : String :=
  "cloudflare-tunnel-ingress-controller.strrl.dev/backend-protocol"

/-- `controller.Config` (securedapplication.go lines 35-41). -/
structure Config where
  cloudflareIdPID : String
  sessionDuration : String
  deriving DecidableEq, Repr

/-- The credential Secret the controller writes: name, namespace and the
two `StringData` fields (securedapplication.go lines 271-295). -/
structure SecretObj where
  name : String
  ns : String
  clientID : String
  clientSecret : String
  deriving DecidableEq, Repr

/-- The Ingress object the controller builds
(securedapplication.go lines 297-364): single host rule, single path. -/
structure IngressObj where
  name : String
  ns : String
  className : String
  annotations : List (String × String)
  host : String
  path : String
  pathType : String
  backendServiceName : String
  backendServicePort : Int
  deriving DecidableEq, Repr

/-! ## Environments: results of external calls -/

/-- Results of the Zitadel adapter's calls, as the engine observes them
(the `zitadel.Client` interface, zitadel/client.go lines 49-56). -/
structure ZitadelEnv where
  getProjectByName : String → Except String (Option Zitadel.Project)
  listProjectRoles : String → Except String (List Zitadel.Role)
  getAppByName : String → String → Except String (Option Zitadel.App)
  createApp : String → Zitadel.AppConfig → Except String Zitadel.App
  updateApp : String → String → Zitadel.AppConfig → Except String Unit
  deleteApp : String → String → Except String Unit

/-- Results of the Cloudflare adapter's calls (the `cloudflare.Client`
interface, cloudflare/client.go lines 33-49; the policy upsert is split
into its two underlying HTTP writes, update-by-id and create). -/
structure CFEnv where
  findAccessAppByDomain : String → Except String (Option Cloudflare.AccessApp)
  createAccessApp : String → String → String → Except String Cloudflare.AccessApp
  updateAccessApp : String → String → String → String → Except String Unit
  deleteAccessApp : String → Except String Unit
  createPolicy : String → Cloudflare.PolicyBody → Except String String
  updatePolicy : String → String → Cloudflare.PolicyBody → Except String Unit

/-- Results of the Kubernetes API calls the controller issues:
object update (finalizers), status update, and the two
`CreateOrUpdate` writes. -/
structure K8sEnv where
  update : SecuredApplication → Except String Unit
  statusUpdate : SecuredApplication → Except String Unit
  writeSecret : SecretObj → Except String Unit
  writeIngress : IngressObj → Except String Unit

/-- Externally observable mutation calls issued during one pass: adapter
mutations and cluster-object writes (lookups are read-only and untraced). -/
inductive Call where
  | zCreateApp (projectID : String) (config : Zitadel.AppConfig)
  | zUpdateApp (projectID appID : String) (config : Zitadel.AppConfig)
  | zDeleteApp (projectID appID : String)
  | cfCreateAccessApp (name domain sessionDuration : String)
  | cfUpdateAccessApp (appID name domain sessionDuration : String)
  | cfDeleteAccessApp (appID : String)
  | cfCreatePolicy (appID : String) (body : Cloudflare.PolicyBody)
  | cfUpdatePolicy (appID policyID : String) (body : Cloudflare.PolicyBody)
  | secretWrite (s : SecretObj)
  | ingressWrite (i : IngressObj)
  deriving DecidableEq, Repr

/-- The scheduling decision of one pass: `ctrl.Result{}` or
`ctrl.Result{RequeueAfter: n seconds}`. -/
inductive RecResult where
  | done
  | requeueAfter (seconds : Nat)
  deriving DecidableEq, Repr

/-- Everything one `Reconcile` invocation produces: the in-memory object
as last written, the scheduling decision, the returned error (if any) and
the trace of mutation calls issued. -/
structure RecOutcome where
  app : SecuredApplication
  result : RecResult
  err : Option String
  trace : List Call
  deriving Repr

/-! ## Pure helpers of the engine -/

/-- `meta.SetStatusCondition`: replace the first condition of the same
type, or append when none exists. -/
def setStatusCondition : List Condition → Condition → List Condition
  | [], c => [c]
  | x :: xs, c => if x.type == c.type then c :: xs else x :: setStatusCondition xs c

/-- The first requested role missing from the existing role keys: models
the `roleSet` map plus the validation loop
(securedapplication.go lines 121-130), which fails on the first
requested role not in the set. -/
def firstMissingRole (requested existing : List String) : Option String :=
  requested.find? (fun r => !(existing.contains r))

/-- The `zitadel.AppConfig` built by `reconcileZitadelApp`
(securedapplication.go lines 203-238): fixed defaults, each overridden by
the corresponding non-zero `spec.oidc` field. -/
def buildAppConfig (app : SecuredApplication) : Zitadel.AppConfig :=
  let base : Zitadel.AppConfig :=
    { name := app.name
      redirectURIs := ["https://" ++ app.spec.host ++ "/callback"]
      postLogoutRedirectURIs := []
      responseTypes := ["OIDC_RESPONSE_TYPE_CODE"]
      grantTypes := ["OIDC_GRANT_TYPE_AUTHORIZATION_CODE"]
      appType := "OIDC_APP_TYPE_WEB"
      authMethodType := "OIDC_AUTH_METHOD_TYPE_BASIC"
      accessTokenType := "OIDC_TOKEN_TYPE_BEARER"
      devMode := false
      idTokenRoleAssertion := false
      idTokenUserinfoAssertion := false
      accessTokenRoleAssertion := false }
  match app.spec.oidc with
  | none => base
  | some o =>
    { base with
      redirectURIs := if o.redirectURIs.length > 0 then o.redirectURIs else base.redirectURIs
      postLogoutRedirectURIs := o.postLogoutRedirectURIs
      responseTypes := if o.responseTypes.length > 0 then o.responseTypes else base.responseTypes
      grantTypes := if o.grantTypes.length > 0 then o.grantTypes else base.grantTypes
      appType := if o.appType ≠ "" then o.appType else base.appType
      authMethodType := if o.authMethodType ≠ "" then o.authMethodType else base.authMethodType
      accessTokenType := if o.accessTokenType ≠ "" then o.accessTokenType else base.accessTokenType
      devMode := o.devMode
      idTokenRoleAssertion := o.idTokenRoleAssertion
      idTokenUserinfoAssertion := o.idTokenUserinfoAssertion
      accessTokenRoleAssertion := o.accessTokenRoleAssertion }

/-- The credential Secret name (securedapplication.go lines 272-275):
explicit `clientSecretRef` override, else `{name}-oidc`. -/
def credentialSecretName (app : SecuredApplication) : String :=
  match app.spec.oidc with
  | some o => if o.clientSecretRef ≠ "" then o.clientSecretRef else app.name ++ "-oidc"
  | none => app.name ++ "-oidc"

/-- Association-list upsert, modelling one Go map assignment. -/
def insertAnn (l : List (String × String)) (key v : String) : List (String × String) :=
  if l.any (fun p => p.1 == key) then
    l.map (fun p => if p.1 == key then (key, v) else p)
  else l ++ [(key, v)]

/-- The Ingress object built by `reconcileIngress`'s mutate closure
(securedapplication.go lines 305-358): override-then-default class, user
annotations plus the backend-protocol annotation when set, one host rule
with one path to the configured backend. -/
def buildIngress (app : SecuredApplication) : IngressObj :=
  let className :=
    match app.spec.ingress with
    | some ic => if ic.className ≠ "" then ic.className else "cloudflare-tunnel"
    | none => "cloudflare-tunnel"
  let userAnnotations :=
    match app.spec.ingress with
    | some ic => ic.annotations
    | none => []
  let annotations :=
    if app.spec.backend.protocol ≠ "" then
      insertAnn userAnnotations cfBackendProtocolAnnotation app.spec.backend.protocol
    else userAnnotations
  let pathType :=
    match app.spec.ingress with
    | some ic => if ic.pathType ≠ "" then ic.pathType else "Prefix"
    | none => "Prefix"
  let path :=
    match app.spec.ingress with
    | some ic => if ic.path ≠ "" then ic.path else "/"
    | none => "/"
  { name := app.name
    ns := app.ns
    className := className
    annotations := annotations
    host := app.spec.host
    path := path
    pathType := pathType
    backendServiceName := app.spec.backend.serviceName
    backendServicePort := app.spec.backend.servicePort }

/-! ## The engine pipeline

`Reconcile` (securedapplication.go lines 57-200) is embedded as a chain of
phase functions, one per early-return region of the Go function; each
threads the accumulated mutation trace. -/

/-- `setCondition` (securedapplication.go lines 366-384): write the single
"Ready" condition, clear `ready` unless the condition is True, persist
status; a failed status write returns the error, otherwise a False
condition requeues after one minute and a True condition does not. -/
def setCondition (k : K8sEnv) (app : SecuredApplication) (condStatus : Bool)
    (reason message : String) (trace : List Call) : RecOutcome :=
  let conds := setStatusCondition app.status.conditions
    { type := "Ready", status := condStatus, reason := reason, message := message }
  let st := { app.status with conditions := conds }
  let st := if condStatus then st else { st with ready := false }
  let app' := { app with status := st }
  match k.statusUpdate app' with
  | .error e => { app := app', result := .done, err := some e, trace := trace }
  | .ok _ =>
    if condStatus then { app := app', result := .done, err := none, trace := trace }
    else { app := app', result := .requeueAfter 60, err := none, trace := trace }

/-- `controllerutil.RemoveFinalizer` plus `r.Update`
(securedapplication.go lines 90-93). -/
def removeFinalizerAndUpdate (k : K8sEnv) (app : SecuredApplication)
    (trace : List Call) : RecOutcome :=
  let app' := { app with finalizers := app.finalizers.filter (fun f => f != finalizerName) }
  match k.update app' with
  | .error e => { app := app', result := .done, err := some e, trace := trace }
  | .ok _ => { app := app', result := .done, err := none, trace := trace }

/-- Teardown, Cloudflare part (securedapplication.go lines 79-85): delete
the Access Application when its ID is recorded; a failure requeues after
30 seconds keeping the finalizer; then the finalizer is removed. -/
def deleteCFPhase (cf : CFEnv) (k : K8sEnv) (app : SecuredApplication)
    (trace : List Call) : RecOutcome :=
  if app.status.accessApplicationID ≠ "" then
    match cf.deleteAccessApp app.status.accessApplicationID with
    | .error _ =>
      { app := app, result := .requeueAfter 30, err := none
        trace := trace ++ [.cfDeleteAccessApp app.status.accessApplicationID] }
    | .ok _ =>
      removeFinalizerAndUpdate k app
        (trace ++ [.cfDeleteAccessApp app.status.accessApplicationID])
  else removeFinalizerAndUpdate k app trace

/-- Teardown (securedapplication.go lines 69-96): with the finalizer
present and `deleteProtection` false, delete the Zitadel app when both
its ID and the project ID are recorded (failure requeues after 30s and
keeps the finalizer), then the Access Application likewise; with
`deleteProtection` true, skip both deletes; finally remove the
finalizer. Without the finalizer, do nothing. -/
def handleDeletion (z : ZitadelEnv) (cf : CFEnv) (k : K8sEnv)
    (app : SecuredApplication) : RecOutcome :=
  if app.finalizers.contains finalizerName then
    if app.spec.deleteProtection then
      removeFinalizerAndUpdate k app []
    else
      if app.status.zitadelAppID ≠ "" ∧ app.status.projectID ≠ "" then
        match z.deleteApp app.status.projectID app.status.zitadelAppID with
        | .error _ =>
          { app := app, result := .requeueAfter 30, err := none
            trace := [.zDeleteApp app.status.projectID app.status.zitadelAppID] }
        | .ok _ => deleteCFPhase cf k app
            [.zDeleteApp app.status.projectID app.status.zitadelAppID]
      else deleteCFPhase cf k app []
  else { app := app, result := .done, err := none, trace := [] }

/-- `reconcileZitadelApp` (securedapplication.go lines 202-269): update in
place when the app ID is in status; otherwise adopt by name and update;
otherwise create — the only path that returns a client secret. -/
def reconcileZitadelApp (z : ZitadelEnv) (app : SecuredApplication)
    (projectID : String) : List Call × Except String (Zitadel.App × String) :=
  let config := buildAppConfig app
  if app.status.zitadelAppID ≠ "" then
    match z.updateApp projectID app.status.zitadelAppID config with
    | .error e => ([.zUpdateApp projectID app.status.zitadelAppID config], .error e)
    | .ok _ =>
      ([.zUpdateApp projectID app.status.zitadelAppID config],
        .ok (⟨app.status.zitadelAppID, app.status.clientID, ""⟩, ""))
  else
    match z.getAppByName projectID app.name with
    | .error e => ([], .error e)
    | .ok (some existing) =>
      match z.updateApp projectID existing.id config with
      | .error e => ([.zUpdateApp projectID existing.id config], .error e)
      | .ok _ => ([.zUpdateApp projectID existing.id config], .ok (existing, ""))
    | .ok none =>
      match z.createApp projectID config with
      | .error e => ([.zCreateApp projectID config], .error e)
      | .ok created => ([.zCreateApp projectID config], .ok (created, created.clientSecret))

/-- `writeCredentialSecret` (securedapplication.go lines 271-295): build
the named Secret carrying clientId/clientSecret and create-or-update it. -/
def writeCredentialSecret (k : K8sEnv) (app : SecuredApplication)
    (clientID clientSecret : String) : SecretObj × Except String Unit :=
  let s : SecretObj :=
    { name := credentialSecretName app, ns := app.ns
      clientID := clientID, clientSecret := clientSecret }
  (s, k.writeSecret s)

/-- `reconcileIngress` (securedapplication.go lines 297-364): build the
Ingress and create-or-update it. -/
def reconcileIngress (k : K8sEnv) (app : SecuredApplication) :
    IngressObj × Except String Unit :=
  let i := buildIngress app
  (i, k.writeIngress i)

/-- `UpsertAccessPolicy` (cloudflare/client.go lines 179-225): build the
allow body from the rules; update in place when a policy ID is known,
else create and return the new ID. -/
def upsertAccessPolicy (cf : CFEnv) (appID existingPolicyID : String)
    (rules : List Cloudflare.OIDCClaimRule) :
    List Call × Except String Cloudflare.AccessPolicy :=
  let body : Cloudflare.PolicyBody :=
    { name := "Allow Zitadel roles", decision := "allow", precedence := 1
      includeRules := rules }
  if existingPolicyID ≠ "" then
    match cf.updatePolicy appID existingPolicyID body with
    | .error e =>
      ([.cfUpdatePolicy appID existingPolicyID body], .error ("update access policy: " ++ e))
    | .ok _ => ([.cfUpdatePolicy appID existingPolicyID body], .ok ⟨existingPolicyID⟩)
  else
    match cf.createPolicy appID body with
    | .error e => ([.cfCreatePolicy appID body], .error ("create access policy: " ++ e))
    | .ok newID => ([.cfCreatePolicy appID body], .ok ⟨newID⟩)

/-- Step 5 and 6 (securedapplication.go lines 186-199): reconcile the
Ingress, then persist all resolved identifiers, set ready and the success
condition. -/
def ingressPhase (k : K8sEnv) (app : SecuredApplication) (project : Zitadel.Project)
    (oidcApp : Zitadel.App) (accessAppID policyID : String)
    (trace : List Call) : RecOutcome :=
  let (ing, res) := reconcileIngress k app
  match res with
  | .error e => setCondition k app false "IngressFailed" e (trace ++ [.ingressWrite ing])
  | .ok _ =>
    let st :=
      { app.status with
        projectID := project.id
        zitadelAppID := oidcApp.id
        clientID := oidcApp.clientID
        accessApplicationID := accessAppID
        accessPolicyID := policyID
        ready := true }
    setCondition k { app with status := st } true "Reconciled"
      "All resources are up to date" (trace ++ [.ingressWrite ing])

/-- The inline OIDC claim rules built from the requested roles
(securedapplication.go lines 172-179): one rule per role, carrying the
configured identity-provider ID and the fixed role claim name. -/
def rulesOf (cfg : Config) (app : SecuredApplication) : List Cloudflare.OIDCClaimRule :=
  app.spec.access.roles.map
    (fun role => Cloudflare.OIDCClaimRule.mk cfg.cloudflareIdPID roleClaimName role)

/-- Step 4, policy part (securedapplication.go lines 172-184): one inline
OIDC claim rule per requested role, upserted as the single allow policy. -/
def policyPhase (cfg : Config) (cf : CFEnv) (k : K8sEnv)
    (app : SecuredApplication) (project : Zitadel.Project)
    (oidcApp : Zitadel.App) (accessAppID : String) (trace : List Call) : RecOutcome :=
  let (pTrace, pRes) := upsertAccessPolicy cf accessAppID app.status.accessPolicyID
    (rulesOf cfg app)
  match pRes with
  | .error e => setCondition k app false "PolicyFailed" e (trace ++ pTrace)
  | .ok policy => ingressPhase k app project oidcApp accessAppID policy.id (trace ++ pTrace)

/-- Step 4, application part (securedapplication.go lines 159-170): update
under the resolved ID when one is known, else create. -/
def accessAppConverge (cfg : Config) (cf : CFEnv) (k : K8sEnv)
    (app : SecuredApplication) (project : Zitadel.Project)
    (oidcApp : Zitadel.App) (accessAppID : String) (trace : List Call) : RecOutcome :=
  if accessAppID ≠ "" then
    match cf.updateAccessApp accessAppID app.name app.spec.host cfg.sessionDuration with
    | .error e =>
      setCondition k app false "CloudflareUpdateFailed" e
        (trace ++ [.cfUpdateAccessApp accessAppID app.name app.spec.host cfg.sessionDuration])
    | .ok _ =>
      policyPhase cfg cf k app project oidcApp accessAppID
        (trace ++ [.cfUpdateAccessApp accessAppID app.name app.spec.host cfg.sessionDuration])
  else
    match cf.createAccessApp app.name app.spec.host cfg.sessionDuration with
    | .error e =>
      setCondition k app false "CloudflareCreateFailed" e
        (trace ++ [.cfCreateAccessApp app.name app.spec.host cfg.sessionDuration])
    | .ok created =>
      policyPhase cfg cf k app project oidcApp created.id
        (trace ++ [.cfCreateAccessApp app.name app.spec.host cfg.sessionDuration])

/-- Step 4, lookup part (securedapplication.go lines 147-157): when no ID
is in status, search by domain and adopt a match. -/
def accessAppPhase (cfg : Config) (cf : CFEnv) (k : K8sEnv)
    (app : SecuredApplication) (project : Zitadel.Project)
    (oidcApp : Zitadel.App) (trace : List Call) : RecOutcome :=
  if app.status.accessApplicationID = "" then
    match cf.findAccessAppByDomain app.spec.host with
    | .error e => setCondition k app false "CloudflareLookupFailed" e trace
    | .ok (some existing) =>
      accessAppConverge cfg cf k app project oidcApp existing.id trace
    | .ok none => accessAppConverge cfg cf k app project oidcApp "" trace
  else accessAppConverge cfg cf k app project oidcApp app.status.accessApplicationID trace

/-- The credential write (securedapplication.go lines 139-144): only when
the Zitadel reconciliation produced a non-empty client secret. -/
def secretPhase (cfg : Config) (cf : CFEnv) (k : K8sEnv)
    (app : SecuredApplication) (project : Zitadel.Project)
    (oidcApp : Zitadel.App) (clientSecret : String) (trace : List Call) : RecOutcome :=
  if clientSecret ≠ "" then
    let (sobj, res) := writeCredentialSecret k app oidcApp.clientID clientSecret
    match res with
    | .error e => setCondition k app false "SecretFailed" e (trace ++ [.secretWrite sobj])
    | .ok _ => accessAppPhase cfg cf k app project oidcApp (trace ++ [.secretWrite sobj])
  else accessAppPhase cfg cf k app project oidcApp trace

/-- Step 3 (securedapplication.go lines 132-137). -/
def oidcPhase (cfg : Config) (z : ZitadelEnv) (cf : CFEnv) (k : K8sEnv)
    (app : SecuredApplication) (project : Zitadel.Project) : RecOutcome :=
  let (zTrace, zRes) := reconcileZitadelApp z app project.id
  match zRes with
  | .error e => setCondition k app false "ZitadelAppFailed" e zTrace
  | .ok pr => secretPhase cfg cf k app project pr.1 pr.2 zTrace

/-- Steps 1-2 (securedapplication.go lines 106-130): resolve the project,
list its roles, fail on the first missing requested role. -/
def projectPhase (cfg : Config) (z : ZitadelEnv) (cf : CFEnv) (k : K8sEnv)
    (app : SecuredApplication) : RecOutcome :=
  match z.getProjectByName app.spec.access.project with
  | .error e => setCondition k app false "ProjectLookupFailed" e []
  | .ok none =>
    setCondition k app false "ProjectNotFound"
      ("Zitadel project \"" ++ app.spec.access.project ++ "\" not found") []
  | .ok (some project) =>
    match z.listProjectRoles project.id with
    | .error e => setCondition k app false "RoleLookupFailed" e []
    | .ok existingRoles =>
      match firstMissingRole app.spec.access.roles
          (existingRoles.map Zitadel.Role.key) with
      | some missing =>
        setCondition k app false "RoleNotFound"
          ("role \"" ++ missing ++ "\" does not exist in Zitadel project \""
            ++ app.spec.access.project ++ "\"") []
      | none => oidcPhase cfg z cf k app project

/-- `Reconcile` (securedapplication.go lines 57-200), starting from the
fetched object: teardown when a deletion timestamp is set; otherwise
ensure the finalizer and run the convergence pipeline. -/
def Reconcile (cfg : Config) (z : ZitadelEnv) (cf : CFEnv) (k : K8sEnv)
    (app : SecuredApplication) : RecOutcome :=
  if app.deletionTimestampIsZero then
    if app.finalizers.contains finalizerName then
      projectPhase cfg z cf k app
    else
      let app' := { app with finalizers := app.finalizers ++ [finalizerName] }
      match k.update app' with
      | .error e => { app := app', result := .done, err := some e, trace := [] }
      | .ok _ => projectPhase cfg z cf k app'
  else handleDeletion z cf k app

/-! ## Trace-shape helpers for the engine claims -/

/-- Classifier: a credential-Secret write. -/
def Call.isSecretWrite : Call → Bool
  | .secretWrite _ => true
  | _ => false

/-- Classifier: an Ingress write. -/
def Call.isIngressWrite : Call → Bool
  | .ingressWrite _ => true
  | _ => false

/-- Classifier: an access-policy create or update. -/
def Call.isPolicyCall : Call → Bool
  | .cfCreatePolicy _ _ => true
  | .cfUpdatePolicy _ _ _ => true
  | _ => false

/-- Classifier: an Access-Application create. -/
def Call.isCFCreateAccessApp : Call → Bool
  | .cfCreateAccessApp _ _ _ => true
  | _ => false

/-- Classifier: an Access-Application create or update. -/
def Call.isCFAppMutation : Call → Bool
  | .cfCreateAccessApp _ _ _ => true
  | .cfUpdateAccessApp _ _ _ _ => true
  | _ => false

/-- Classifier: an OIDC-application create or update on Zitadel. -/
def Call.isZitadelAppCall : Call → Bool
  | .zCreateApp _ _ => true
  | .zUpdateApp _ _ _ => true
  | _ => false

/-- Classifier: an external delete (teardown) call. -/
def Call.isDeleteCall : Call → Bool
  | .zDeleteApp _ _ => true
  | .cfDeleteAccessApp _ => true
  | _ => false


/-- The policy request body for a given descriptor and configuration. -/
def policyBodyOf (cfg : Config) (app : SecuredApplication) : Cloudflare.PolicyBody :=
  { name := "Allow Zitadel roles", decision := "allow", precedence := 1
    includeRules := rulesOf cfg app }

/-- The "Ready" condition currently recorded in status. -/
def ReadyCond (a : SecuredApplication) : Option Condition :=
  a.status.conditions.find? (fun c => c.type == "Ready")

/-- The observable shape of a failed pass: bounded-delay requeue, no
returned error, `ready=false`, and a False "Ready" condition carrying
some reason and message. -/
def FailureOutcome (out : RecOutcome) : Prop :=
  out.result = .requeueAfter 60 ∧ out.err = none ∧ out.app.status.ready = false
  ∧ ∃ reason message, ReadyCond out.app = some ⟨"Ready", false, reason, message⟩

/-- The observable shape of a successful pass: no requeue, no returned
error, `ready=true`, and the success "Ready" condition. -/
def SuccessOutcome (out : RecOutcome) : Prop :=
  out.result = .done ∧ out.err = none ∧ out.app.status.ready = true
  ∧ ReadyCond out.app
      = some ⟨"Ready", true, "Reconciled", "All resources are up to date"⟩

/-! ## Concrete fixtures used by witnesses and counterexamples -/

/-- Example operator configuration. -/
def cfgEx : Config := ⟨"idp-1", "24h"⟩

/-- Example descriptor spec requesting no route overrides and no OIDC
overrides: one project, one role, no `ingress` section. -/
def specEx : SecuredApplicationSpec :=
  { host := "wiki.example.com"
    access := ⟨"infra", ["admin"]⟩
    oidc := none
    ingress := none
    backend := ⟨"wiki", 8080, ""⟩
    deleteProtection := false }

/-- Empty status (first pass). -/
def statusEmpty : SecuredApplicationStatus :=
  { projectID := "", zitadelAppID := "", clientID := "", accessApplicationID := ""
    accessPolicyID := "", ready := false, conditions := [] }

/-- Status after a fully successful pass: all identifiers resolved. -/
def statusSteady : SecuredApplicationStatus :=
  { projectID := "p1", zitadelAppID := "z1", clientID := "client1"
    accessApplicationID := "a1", accessPolicyID := "pol1"
    ready := true, conditions := [] }

/-- A live descriptor with its finalizer present and empty status. -/
def appEx : SecuredApplication :=
  { name := "wiki", ns := "default", deletionTimestampIsZero := true
    finalizers := [finalizerName], spec := specEx, status := statusEmpty }

/-- The same descriptor in steady state. -/
def appSteady : SecuredApplication :=
  { appEx with status := statusSteady }

/-- A descriptor marked for removal whose status records an OIDC app ID
but no project ID. -/
def appDelZOnly : SecuredApplication :=
  { appEx with
    deletionTimestampIsZero := false
    status := { statusEmpty with zitadelAppID := "z1" } }

/-- A descriptor marked for removal with every identifier recorded. -/
def appDelFull : SecuredApplication :=
  { appEx with deletionTimestampIsZero := false, status := statusSteady }

/-- A Zitadel environment in which everything succeeds; app creation
returns the one-time secret "sec1". -/
def zEnvEx : ZitadelEnv :=
  { getProjectByName := fun _ => .ok (some ⟨"p1", "infra"⟩)
    listProjectRoles := fun _ => .ok [⟨"admin", "Admin"⟩]
    getAppByName := fun _ _ => .ok none
    createApp := fun _ _ => .ok ⟨"z1", "client1", "sec1"⟩
    updateApp := fun _ _ _ => .ok ()
    deleteApp := fun _ _ => .ok () }

/-- A Cloudflare environment in which everything succeeds and no Access
Application pre-exists for any domain. -/
def cfEnvEx : CFEnv :=
  { findAccessAppByDomain := fun _ => .ok none
    createAccessApp := fun n _ _ => .ok ⟨"a1", n⟩
    updateAccessApp := fun _ _ _ _ => .ok ()
    deleteAccessApp := fun _ => .ok ()
    createPolicy := fun _ _ => .ok "pol1"
    updatePolicy := fun _ _ _ => .ok () }

/-- A Cloudflare environment whose domain lookup finds an existing
Access Application "a9". -/
def cfEnvAdopt : CFEnv :=
  { cfEnvEx with findAccessAppByDomain := fun _ => .ok (some ⟨"a9", "wiki"⟩) }

/-- A Kubernetes environment in which every write succeeds. -/
def kEnvEx : K8sEnv :=
  { update := fun _ => .ok (), statusUpdate := fun _ => .ok ()
    writeSecret := fun _ => .ok (), writeIngress := fun _ => .ok () }

/-- A descriptor requesting a role that does not exist in the project. -/
def appMissingRole : SecuredApplication :=
  { appEx with spec := { specEx with access := ⟨"infra", ["admin", "ghost"]⟩ } }

/-- A steady-state descriptor whose access-application ID is unset
(e.g. status lost), everything else resolved. -/
def appC8 : SecuredApplication :=
  { appEx with status := { statusSteady with accessApplicationID := "" } }

/-- A descriptor marked for removal with identifiers recorded and delete
protection enabled. -/
def appDelProt : SecuredApplication :=
  { appDelFull with spec := { specEx with deleteProtection := true } }

/-! ## Adapter-level properties (claims C2, C9, C10) -/

/-- A substring of `b` is a substring of `a ++ b`. -/
theorem strContains_append_left (a b pat : String)
    (h : strContains b pat = true) : strContains (a ++ b) pat = true := by
  simp only [strContains, decide_eq_true_eq] at h ⊢
  have hsplit : (a ++ b).toList = a.toList ++ b.toList := by simp [String.toList]
  rw [hsplit]
  exact h.trans (List.suffix_append a.toList b.toList).isInfix

/-- C2 (counterexample): a delete call against an ID whose object no longer
exists — the remote answering 404 not-found — returns an error, not
success, for both the Zitadel and the Cloudflare client. -/
theorem claim2_counterexample :
    (Zitadel.deleteApp (.ok ⟨404, "App not found"⟩) "p1" "z1").isOk = false
    ∧ (Cloudflare.deleteAccessApp (.ok ⟨404, "access app not found"⟩) "acct1" "a1").isOk
      = false := by
  exact ⟨rfl, rfl⟩

/-- C2 (amended): both delete calls simply propagate the remote's status:
any status ≥ 400 — not-found included — is returned as an error, and a
success status returns success; not-found is not normalized to success. -/
theorem claim2_delete_propagates_remote_status (r : HTTPResponse)
    (projectID appID accountID : String) :
    (400 ≤ r.statusCode →
      (Zitadel.deleteApp (.ok r) projectID appID).isOk = false
      ∧ (Cloudflare.deleteAccessApp (.ok r) accountID appID).isOk = false)
    ∧ (r.statusCode < 400 →
      Zitadel.deleteApp (.ok r) projectID appID = .ok ()
      ∧ Cloudflare.deleteAccessApp (.ok r) accountID appID = .ok ()) := by
  constructor
  · intro h
    constructor
    · simp [Zitadel.deleteApp, Zitadel.clientDo, Except.isOk, Except.toBool, h]
    · simp [Cloudflare.deleteAccessApp, Cloudflare.clientDo, Except.isOk, Except.toBool, h]
  · intro h
    have h' : ¬ (400 ≤ r.statusCode) := by omega
    constructor
    · simp [Zitadel.deleteApp, Zitadel.clientDo, h']
    · simp [Cloudflare.deleteAccessApp, Cloudflare.clientDo, h']

/-- Witness for C2 (amended) at concrete responses 404 and 200. -/
theorem claim2_witness :
    (Zitadel.deleteApp (.ok ⟨404, "gone"⟩) "p9" "z9").isOk = false
    ∧ Cloudflare.deleteAccessApp (.ok ⟨200, "ok"⟩) "acct9" "a9" = .ok () :=
  ⟨((claim2_delete_propagates_remote_status ⟨404, "gone"⟩ "p9" "z9" "acct9").1
      (by decide)).1,
    ((claim2_delete_propagates_remote_status ⟨200, "ok"⟩ "p9" "z9" "acct9").2
      (by decide)).2⟩

/-- C9: a Zitadel OIDC application update whose remote response reports the
"No changes" condition (status ≥ 400 with "No changes" in the body) is
normalized to success: `UpdateApp` returns no error. -/
theorem claim9_update_no_changes_is_success (r : HTTPResponse)
    (projectID appID : String) (hstatus : 400 ≤ r.statusCode)
    (hbody : strContains r.body "No changes" = true) :
    Zitadel.updateApp (.ok r) projectID appID = .ok () := by
  have hc := strContains_append_left
    ("zitadel API " ++ "PUT" ++ " "
      ++ ("/management/v1/projects/" ++ projectID ++ "/apps/" ++ appID ++ "/oidc_config")
      ++ " returned " ++ toString r.statusCode ++ ": ") r.body "No changes" hbody
  simp only [Zitadel.updateApp, Zitadel.clientDo, ge_iff_le, hstatus, if_true]
  simp only [String.append_assoc] at hc ⊢
  simp [hc]

/-- Witness for C9 at a concrete 400 "No changes" response. -/
theorem claim9_witness :
    Zitadel.updateApp (.ok ⟨400, "Errors.NoChangesFound: No changes"⟩) "p1" "z1"
      = .ok () :=
  claim9_update_no_changes_is_success ⟨400, "Errors.NoChangesFound: No changes"⟩
    "p1" "z1" (by decide) (by decide)

/-- C10: a name search with several matches makes `GetProjectByName` and
`GetAppByName` return the first result without signalling the ambiguity,
and an empty result list yields the distinct not-found value `none` with
no error. -/
theorem claim10_first_match_and_none :
    (∀ (r₁ r₂ : Zitadel.RawProject) (rest : List Zitadel.RawProject),
      Zitadel.getProjectByName (.ok (r₁ :: r₂ :: rest)) = .ok (some ⟨r₁.id, r₁.name⟩))
    ∧ Zitadel.getProjectByName (.ok []) = .ok none
    ∧ (∀ (r₁ r₂ : Zitadel.RawApp) (rest : List Zitadel.RawApp),
      Zitadel.getAppByName (.ok (r₁ :: r₂ :: rest)) = .ok (some ⟨r₁.id, r₁.clientID, ""⟩))
    ∧ Zitadel.getAppByName (.ok []) = .ok none :=
  ⟨fun _ _ _ => rfl, rfl, fun _ _ _ => rfl, rfl⟩

/-- `setCondition` issues no mutation call: its trace is its input. -/
theorem setCondition_trace (k : K8sEnv) (a : SecuredApplication) (b : Bool)
    (reason message : String) (tr : List Call) :
    (setCondition k a b reason message tr).trace = tr := by
  simp only [setCondition]
  split
  · rfl
  · split <;> rfl

/-- The trace of `ingressPhase`: the input plus exactly one Ingress write. -/
theorem ingressPhase_trace (k : K8sEnv) (a : SecuredApplication)
    (project : Zitadel.Project) (oidcApp : Zitadel.App)
    (accessAppID policyID : String) (tr : List Call) :
    (ingressPhase k a project oidcApp accessAppID policyID tr).trace
      = tr ++ [.ingressWrite (buildIngress a)] := by
  simp only [ingressPhase, reconcileIngress]
  split
  · rw [setCondition_trace]
  · rw [setCondition_trace]

/-- Calls added past the policy step are policy calls or Ingress writes. -/
theorem mem_policyPhase_trace (cfg : Config) (cf : CFEnv) (k : K8sEnv)
    (a : SecuredApplication) (project : Zitadel.Project) (oidcApp : Zitadel.App)
    (accessAppID : String) (tr : List Call) (c : Call)
    (hc : c ∈ (policyPhase cfg cf k a project oidcApp accessAppID tr).trace) :
    c ∈ tr ∨ c.isPolicyCall = true ∨ c.isIngressWrite = true := by
  simp only [policyPhase, upsertAccessPolicy] at hc
  by_cases hp : a.status.accessPolicyID ≠ ""
  · rw [if_pos hp] at hc
    cases hu : cf.updatePolicy accessAppID a.status.accessPolicyID
        { name := "Allow Zitadel roles", decision := "allow", precedence := 1
          includeRules := rulesOf cfg a } with
    | error e =>
      rw [hu, setCondition_trace] at hc
      rcases List.mem_append.mp hc with h | h
      · exact Or.inl h
      · simp only [List.mem_singleton] at h
        subst h
        exact Or.inr (Or.inl rfl)
    | ok u =>
      rw [hu, ingressPhase_trace] at hc
      rcases List.mem_append.mp hc with h | h
      · rcases List.mem_append.mp h with h1 | h1
        · exact Or.inl h1
        · simp only [List.mem_singleton] at h1
          subst h1
          exact Or.inr (Or.inl rfl)
      · simp only [List.mem_singleton] at h
        subst h
        exact Or.inr (Or.inr rfl)
  · rw [if_neg hp] at hc
    cases hu : cf.createPolicy accessAppID
        { name := "Allow Zitadel roles", decision := "allow", precedence := 1
          includeRules := rulesOf cfg a } with
    | error e =>
      rw [hu, setCondition_trace] at hc
      rcases List.mem_append.mp hc with h | h
      · exact Or.inl h
      · simp only [List.mem_singleton] at h
        subst h
        exact Or.inr (Or.inl rfl)
    | ok newID =>
      rw [hu, ingressPhase_trace] at hc
      rcases List.mem_append.mp hc with h | h
      · rcases List.mem_append.mp h with h1 | h1
        · exact Or.inl h1
        · simp only [List.mem_singleton] at h1
          subst h1
          exact Or.inr (Or.inl rfl)
      · simp only [List.mem_singleton] at h
        subst h
        exact Or.inr (Or.inr rfl)

/-- Under a live object with its finalizer present, a resolved project and
a valid role set, the pass proceeds to the OIDC step. -/
theorem reconcile_pinned_to_oidc (cfg : Config) (z : ZitadelEnv) (cf : CFEnv)
    (k : K8sEnv) (app : SecuredApplication) (project : Zitadel.Project)
    (existingRoles : List Zitadel.Role)
    (hlive : app.deletionTimestampIsZero = true)
    (hfin : app.finalizers.contains finalizerName = true)
    (hproj : z.getProjectByName app.spec.access.project = .ok (some project))
    (hroles : z.listProjectRoles project.id = .ok existingRoles)
    (hmiss : firstMissingRole app.spec.access.roles
      (existingRoles.map Zitadel.Role.key) = none) :
    Reconcile cfg z cf k app = oidcPhase cfg z cf k app project := by
  have hfin' : finalizerName ∈ app.finalizers := by simpa using hfin
  simp [Reconcile, projectPhase, hlive, hfin, hfin', hproj, hroles, hmiss]

/-- A successful Zitadel reconciliation with no fresh secret skips the
credential write and proceeds to the access-application step. -/
theorem oidcPhase_pinned (cfg : Config) (z : ZitadelEnv) (cf : CFEnv)
    (k : K8sEnv) (app : SecuredApplication) (project : Zitadel.Project)
    (oidcApp : Zitadel.App) (zTr : List Call)
    (hz : reconcileZitadelApp z app project.id = (zTr, .ok (oidcApp, ""))) :
    oidcPhase cfg z cf k app project
      = accessAppPhase cfg cf k app project oidcApp zTr := by
  simp [oidcPhase, hz, secretPhase]

/-- A recorded access-application ID skips the lookup. -/
theorem accessAppPhase_known (cfg : Config) (cf : CFEnv) (k : K8sEnv)
    (app : SecuredApplication) (project : Zitadel.Project) (oidcApp : Zitadel.App)
    (tr : List Call) (haid : app.status.accessApplicationID ≠ "") :
    accessAppPhase cfg cf k app project oidcApp tr
      = accessAppConverge cfg cf k app project oidcApp
          app.status.accessApplicationID tr := by
  simp [accessAppPhase, haid]

/-- With no recorded ID and a domain match, the match's ID is adopted. -/
theorem accessAppPhase_adopt (cfg : Config) (cf : CFEnv) (k : K8sEnv)
    (app : SecuredApplication) (project : Zitadel.Project) (oidcApp : Zitadel.App)
    (existing : Cloudflare.AccessApp) (tr : List Call)
    (haid : app.status.accessApplicationID = "")
    (hfind : cf.findAccessAppByDomain app.spec.host = .ok (some existing)) :
    accessAppPhase cfg cf k app project oidcApp tr
      = accessAppConverge cfg cf k app project oidcApp existing.id tr := by
  simp [accessAppPhase, haid, hfind]

/-- A known access-application ID is updated, never created, and on
success the pass proceeds to the policy step. -/
theorem accessAppConverge_update (cfg : Config) (cf : CFEnv) (k : K8sEnv)
    (app : SecuredApplication) (project : Zitadel.Project) (oidcApp : Zitadel.App)
    (accessAppID : String) (tr : List Call) (hne : accessAppID ≠ "")
    (hupd : cf.updateAccessApp accessAppID app.name app.spec.host
      cfg.sessionDuration = .ok ()) :
    accessAppConverge cfg cf k app project oidcApp accessAppID tr
      = policyPhase cfg cf k app project oidcApp accessAppID
          (tr ++ [.cfUpdateAccessApp accessAppID app.name app.spec.host
            cfg.sessionDuration]) := by
  simp [accessAppConverge, hne, hupd]

/-- A successful policy upsert proceeds to the route step. -/
theorem policyPhase_pinned (cfg : Config) (cf : CFEnv) (k : K8sEnv)
    (app : SecuredApplication) (project : Zitadel.Project) (oidcApp : Zitadel.App)
    (accessAppID : String) (pTr : List Call) (policy : Cloudflare.AccessPolicy)
    (tr : List Call)
    (hpol : upsertAccessPolicy cf accessAppID app.status.accessPolicyID
      (rulesOf cfg app) = (pTr, .ok policy)) :
    policyPhase cfg cf k app project oidcApp accessAppID tr
      = ingressPhase k app project oidcApp accessAppID policy.id (tr ++ pTr) := by
  simp [policyPhase, hpol]

/-- A successful Ingress write ends in the success status write with all
resolved identifiers persisted. -/
theorem ingressPhase_success (k : K8sEnv) (app : SecuredApplication)
    (project : Zitadel.Project) (oidcApp : Zitadel.App)
    (accessAppID policyID : String) (tr : List Call)
    (hwi : k.writeIngress (buildIngress app) = .ok ()) :
    ingressPhase k app project oidcApp accessAppID policyID tr
      = setCondition k
          { app with status :=
            { app.status with
              projectID := project.id
              zitadelAppID := oidcApp.id
              clientID := oidcApp.clientID
              accessApplicationID := accessAppID
              accessPolicyID := policyID
              ready := true } }
          true "Reconciled" "All resources are up to date"
          (tr ++ [.ingressWrite (buildIngress app)]) := by
  simp [ingressPhase, reconcileIngress, hwi]

/-- The policy step preserves every call already in the trace. -/
theorem policyPhase_mono (cfg : Config) (cf : CFEnv) (k : K8sEnv)
    (a : SecuredApplication) (project : Zitadel.Project) (oidcApp : Zitadel.App)
    (accessAppID : String) (tr : List Call) (c : Call) (hc : c ∈ tr) :
    c ∈ (policyPhase cfg cf k a project oidcApp accessAppID tr).trace := by
  simp only [policyPhase, upsertAccessPolicy]
  by_cases hp : a.status.accessPolicyID ≠ ""
  · rw [if_pos hp]
    cases hu : cf.updatePolicy accessAppID a.status.accessPolicyID
        { name := "Allow Zitadel roles", decision := "allow", precedence := 1
          includeRules := rulesOf cfg a } with
    | error e =>
      rw [setCondition_trace]
      exact List.mem_append_left _ hc
    | ok u =>
      rw [ingressPhase_trace]
      exact List.mem_append_left _ (List.mem_append_left _ hc)
  · rw [if_neg hp]
    cases hu : cf.createPolicy accessAppID
        { name := "Allow Zitadel roles", decision := "allow", precedence := 1
          includeRules := rulesOf cfg a } with
    | error e =>
      rw [setCondition_trace]
      exact List.mem_append_left _ hc
    | ok newID =>
      rw [ingressPhase_trace]
      exact List.mem_append_left _ (List.mem_append_left _ hc)

/-- With a known policy ID, the policy step issues the in-place update
carrying the full request body. -/
theorem policyPhase_mem_update (cfg : Config) (cf : CFEnv) (k : K8sEnv)
    (a : SecuredApplication) (project : Zitadel.Project) (oidcApp : Zitadel.App)
    (accessAppID : String) (tr : List Call) (hp : a.status.accessPolicyID ≠ "") :
    Call.cfUpdatePolicy accessAppID a.status.accessPolicyID (policyBodyOf cfg a)
      ∈ (policyPhase cfg cf k a project oidcApp accessAppID tr).trace := by
  simp only [policyPhase, upsertAccessPolicy, policyBodyOf, if_pos hp]
  cases hu : cf.updatePolicy accessAppID a.status.accessPolicyID
      { name := "Allow Zitadel roles", decision := "allow", precedence := 1
        includeRules := rulesOf cfg a } with
  | error e =>
    rw [setCondition_trace]
    exact List.mem_append_right _ (List.mem_singleton.mpr rfl)
  | ok u =>
    rw [ingressPhase_trace]
    exact List.mem_append_left _ (List.mem_append_right _ (List.mem_singleton.mpr rfl))

/-- With no known policy ID, the policy step issues the create carrying
the full request body. -/
theorem policyPhase_mem_create (cfg : Config) (cf : CFEnv) (k : K8sEnv)
    (a : SecuredApplication) (project : Zitadel.Project) (oidcApp : Zitadel.App)
    (accessAppID : String) (tr : List Call) (hp : a.status.accessPolicyID = "") :
    Call.cfCreatePolicy accessAppID (policyBodyOf cfg a)
      ∈ (policyPhase cfg cf k a project oidcApp accessAppID tr).trace := by
  have hp' : ¬ (a.status.accessPolicyID ≠ "") := by simp [hp]
  simp only [policyPhase, upsertAccessPolicy, policyBodyOf, if_neg hp']
  cases hu : cf.createPolicy accessAppID
      { name := "Allow Zitadel roles", decision := "allow", precedence := 1
        includeRules := rulesOf cfg a } with
  | error e =>
    rw [setCondition_trace]
    exact List.mem_append_right _ (List.mem_singleton.mpr rfl)
  | ok newID =>
    rw [ingressPhase_trace]
    exact List.mem_append_left _ (List.mem_append_right _ (List.mem_singleton.mpr rfl))

/-- With a known (non-empty) access-application ID, the converge step
always issues the update call for that ID. -/
theorem accessAppConverge_mem_update (cfg : Config) (cf : CFEnv) (k : K8sEnv)
    (a : SecuredApplication) (project : Zitadel.Project) (oidcApp : Zitadel.App)
    (accessAppID : String) (tr : List Call) (hne : accessAppID ≠ "") :
    Call.cfUpdateAccessApp accessAppID a.name a.spec.host cfg.sessionDuration
      ∈ (accessAppConverge cfg cf k a project oidcApp accessAppID tr).trace := by
  simp only [accessAppConverge, if_pos hne]
  cases hu : cf.updateAccessApp accessAppID a.name a.spec.host cfg.sessionDuration with
  | error e =>
    rw [setCondition_trace]
    exact List.mem_append_right _ (List.mem_singleton.mpr rfl)
  | ok u =>
    exact policyPhase_mono cfg cf k a project oidcApp accessAppID _ _
      (List.mem_append_right _ (List.mem_singleton.mpr rfl))

/-- With a known access-application ID, every call added from the
converge step on is that ID's update, a policy call or an Ingress write —
never an Access-Application create. -/
theorem mem_accessAppConverge_known (cfg : Config) (cf : CFEnv) (k : K8sEnv)
    (a : SecuredApplication) (project : Zitadel.Project) (oidcApp : Zitadel.App)
    (accessAppID : String) (tr : List Call) (c : Call) (hne : accessAppID ≠ "")
    (hc : c ∈ (accessAppConverge cfg cf k a project oidcApp accessAppID tr).trace) :
    c ∈ tr
    ∨ c = Call.cfUpdateAccessApp accessAppID a.name a.spec.host cfg.sessionDuration
    ∨ c.isPolicyCall = true ∨ c.isIngressWrite = true := by
  simp only [accessAppConverge, if_pos hne] at hc
  cases hu : cf.updateAccessApp accessAppID a.name a.spec.host cfg.sessionDuration with
  | error e =>
    rw [hu, setCondition_trace] at hc
    rcases List.mem_append.mp hc with h | h
    · exact Or.inl h
    · exact Or.inr (Or.inl (List.mem_singleton.mp h))
  | ok u =>
    rw [hu] at hc
    rcases mem_policyPhase_trace cfg cf k a project oidcApp accessAppID _ c hc
      with h | h | h
    · rcases List.mem_append.mp h with h1 | h1
      · exact Or.inl h1
      · exact Or.inr (Or.inl (List.mem_singleton.mp h1))
    · exact Or.inr (Or.inr (Or.inl h))
    · exact Or.inr (Or.inr (Or.inr h))

/-- Every call added from the access-application step on is an
Access-Application mutation, a policy call or an Ingress write. -/
theorem mem_accessAppConverge (cfg : Config) (cf : CFEnv) (k : K8sEnv)
    (a : SecuredApplication) (project : Zitadel.Project) (oidcApp : Zitadel.App)
    (accessAppID : String) (tr : List Call) (c : Call)
    (hc : c ∈ (accessAppConverge cfg cf k a project oidcApp accessAppID tr).trace) :
    c ∈ tr ∨ c.isCFAppMutation = true
    ∨ c.isPolicyCall = true ∨ c.isIngressWrite = true := by
  simp only [accessAppConverge] at hc
  by_cases hne : accessAppID ≠ ""
  · rw [if_pos hne] at hc
    cases hu : cf.updateAccessApp accessAppID a.name a.spec.host cfg.sessionDuration with
    | error e =>
      rw [hu, setCondition_trace] at hc
      rcases List.mem_append.mp hc with h | h
      · exact Or.inl h
      · rw [List.mem_singleton.mp h]
        exact Or.inr (Or.inl rfl)
    | ok u =>
      rw [hu] at hc
      rcases mem_policyPhase_trace cfg cf k a project oidcApp accessAppID _ c hc
        with h | h | h
      · rcases List.mem_append.mp h with h1 | h1
        · exact Or.inl h1
        · rw [List.mem_singleton.mp h1]
          exact Or.inr (Or.inl rfl)
      · exact Or.inr (Or.inr (Or.inl h))
      · exact Or.inr (Or.inr (Or.inr h))
  · rw [if_neg hne] at hc
    cases hu : cf.createAccessApp a.name a.spec.host cfg.sessionDuration with
    | error e =>
      rw [hu, setCondition_trace] at hc
      rcases List.mem_append.mp hc with h | h
      · exact Or.inl h
      · rw [List.mem_singleton.mp h]
        exact Or.inr (Or.inl rfl)
    | ok created =>
      rw [hu] at hc
      rcases mem_policyPhase_trace cfg cf k a project oidcApp created.id _ c hc
        with h | h | h
      · rcases List.mem_append.mp h with h1 | h1
        · exact Or.inl h1
        · rw [List.mem_singleton.mp h1]
          exact Or.inr (Or.inl rfl)
      · exact Or.inr (Or.inr (Or.inl h))
      · exact Or.inr (Or.inr (Or.inr h))

/-- Every call added from the access-application lookup on is an
Access-Application mutation, a policy call or an Ingress write. -/
theorem mem_accessAppPhase (cfg : Config) (cf : CFEnv) (k : K8sEnv)
    (a : SecuredApplication) (project : Zitadel.Project) (oidcApp : Zitadel.App)
    (tr : List Call) (c : Call)
    (hc : c ∈ (accessAppPhase cfg cf k a project oidcApp tr).trace) :
    c ∈ tr ∨ c.isCFAppMutation = true
    ∨ c.isPolicyCall = true ∨ c.isIngressWrite = true := by
  simp only [accessAppPhase] at hc
  by_cases haid : a.status.accessApplicationID = ""
  · rw [if_pos haid] at hc
    cases hf : cf.findAccessAppByDomain a.spec.host with
    | error e =>
      rw [hf, setCondition_trace] at hc
      exact Or.inl hc
    | ok found =>
      cases found with
      | none =>
        rw [hf] at hc
        exact mem_accessAppConverge cfg cf k a project oidcApp "" tr c hc
      | some existing =>
        rw [hf] at hc
        exact mem_accessAppConverge cfg cf k a project oidcApp existing.id tr c hc
  · rw [if_neg haid] at hc
    exact mem_accessAppConverge cfg cf k a project oidcApp
      a.status.accessApplicationID tr c hc

/-- Removing the finalizer issues no mutation call. -/
theorem removeFinalizerAndUpdate_trace (k : K8sEnv) (a : SecuredApplication)
    (tr : List Call) : (removeFinalizerAndUpdate k a tr).trace = tr := by
  simp only [removeFinalizerAndUpdate]
  split <;> rfl

/-- Teardown's Cloudflare part only adds external delete calls. -/
theorem mem_deleteCFPhase (cf : CFEnv) (k : K8sEnv) (a : SecuredApplication)
    (tr : List Call) (c : Call) (hc : c ∈ (deleteCFPhase cf k a tr).trace) :
    c ∈ tr ∨ c.isDeleteCall = true := by
  simp only [deleteCFPhase] at hc
  by_cases haid : a.status.accessApplicationID ≠ ""
  · rw [if_pos haid] at hc
    cases hd : cf.deleteAccessApp a.status.accessApplicationID with
    | error e =>
      rw [hd] at hc
      simp only [List.mem_append, List.mem_singleton] at hc
      rcases hc with h | rfl
      · exact Or.inl h
      · exact Or.inr rfl
    | ok u =>
      rw [hd, removeFinalizerAndUpdate_trace] at hc
      simp only [List.mem_append, List.mem_singleton] at hc
      rcases hc with h | rfl
      · exact Or.inl h
      · exact Or.inr rfl
  · rw [if_neg haid, removeFinalizerAndUpdate_trace] at hc
    exact Or.inl hc

/-- Teardown only ever issues external delete calls. -/
theorem mem_handleDeletion (z : ZitadelEnv) (cf : CFEnv) (k : K8sEnv)
    (a : SecuredApplication) (c : Call)
    (hc : c ∈ (handleDeletion z cf k a).trace) : c.isDeleteCall = true := by
  simp only [handleDeletion] at hc
  by_cases hfin : a.finalizers.contains finalizerName
  · rw [if_pos hfin] at hc
    by_cases hdp : a.spec.deleteProtection
    · rw [if_pos hdp, removeFinalizerAndUpdate_trace] at hc
      exact absurd hc (List.not_mem_nil c)
    · rw [if_neg hdp] at hc
      by_cases hz : a.status.zitadelAppID ≠ "" ∧ a.status.projectID ≠ ""
      · rw [if_pos hz] at hc
        cases hd : z.deleteApp a.status.projectID a.status.zitadelAppID with
        | error e =>
          rw [hd] at hc
          rw [List.mem_singleton.mp hc]
          rfl
        | ok u =>
          rw [hd] at hc
          rcases mem_deleteCFPhase cf k a _ c hc with h | h
          · rw [List.mem_singleton.mp h]
            rfl
          · exact h
      · rw [if_neg hz] at hc
        rcases mem_deleteCFPhase cf k a _ c hc with h | h
        · exact absurd h (List.not_mem_nil c)
        · exact h
  · rw [if_neg hfin] at hc
    exact absurd hc (List.not_mem_nil c)

/-- The Zitadel reconciliation only issues OIDC-application calls. -/
theorem mem_reconcileZitadelApp (z : ZitadelEnv) (a : SecuredApplication)
    (projectID : String) (c : Call)
    (hc : c ∈ (reconcileZitadelApp z a projectID).1) :
    c.isZitadelAppCall = true := by
  simp only [reconcileZitadelApp] at hc
  by_cases hzid : a.status.zitadelAppID ≠ ""
  · rw [if_pos hzid] at hc
    cases hu : z.updateApp projectID a.status.zitadelAppID (buildAppConfig a) with
    | error e =>
      rw [hu] at hc
      rw [List.mem_singleton.mp hc]
      rfl
    | ok u =>
      rw [hu] at hc
      rw [List.mem_singleton.mp hc]
      rfl
  · rw [if_neg hzid] at hc
    cases hg : z.getAppByName projectID a.name with
    | error e =>
      rw [hg] at hc
      exact absurd hc (List.not_mem_nil c)
    | ok found =>
      cases found with
      | some existing =>
        simp only [hg] at hc
        cases hu : z.updateApp projectID existing.id (buildAppConfig a) with
        | error e =>
          rw [hu] at hc
          rw [List.mem_singleton.mp hc]
          rfl
        | ok u =>
          rw [hu] at hc
          rw [List.mem_singleton.mp hc]
          rfl
      | none =>
        simp only [hg] at hc
        cases hcr : z.createApp projectID (buildAppConfig a) with
        | error e =>
          rw [hcr] at hc
          rw [List.mem_singleton.mp hc]
          rfl
        | ok created =>
          rw [hcr] at hc
          rw [List.mem_singleton.mp hc]
          rfl

/-- On the update path the returned client secret is empty. -/
theorem reconcileZitadelApp_secret_update (z : ZitadelEnv)
    (a : SecuredApplication) (projectID : String)
    (pr : Zitadel.App × String) (hzid : a.status.zitadelAppID ≠ "")
    (hok : (reconcileZitadelApp z a projectID).2 = .ok pr) : pr.2 = "" := by
  simp only [reconcileZitadelApp, if_pos hzid] at hok
  cases hu : z.updateApp projectID a.status.zitadelAppID (buildAppConfig a) with
  | error e => rw [hu] at hok; exact absurd hok (by simp)
  | ok u =>
    rw [hu] at hok
    simp only [Except.ok.injEq] at hok
    rw [← hok]

/-- On the adopt path the returned client secret is empty. -/
theorem reconcileZitadelApp_secret_adopt (z : ZitadelEnv)
    (a : SecuredApplication) (projectID : String) (existing : Zitadel.App)
    (pr : Zitadel.App × String) (hzid : a.status.zitadelAppID = "")
    (hfound : z.getAppByName projectID a.name = .ok (some existing))
    (hok : (reconcileZitadelApp z a projectID).2 = .ok pr) : pr.2 = "" := by
  have hzid' : ¬ (a.status.zitadelAppID ≠ "") := by simp [hzid]
  simp only [reconcileZitadelApp, if_neg hzid', hfound] at hok
  cases hu : z.updateApp projectID existing.id (buildAppConfig a) with
  | error e => rw [hu] at hok; exact absurd hok (by simp)
  | ok u =>
    rw [hu] at hok
    simp only [Except.ok.injEq] at hok
    rw [← hok]

/-- After writing the "Ready" condition, looking it up returns exactly the
written condition. -/
theorem readyCond_setStatusCondition (conds : List Condition) (b : Bool)
    (reason message : String) :
    (setStatusCondition conds ⟨"Ready", b, reason, message⟩).find?
      (fun c => c.type == "Ready") = some ⟨"Ready", b, reason, message⟩ := by
  induction conds with
  | nil => simp [setStatusCondition]
  | cons x xs ih =>
    simp only [setStatusCondition]
    by_cases h : x.type == "Ready"
    · rw [if_pos h]
      simp [List.find?]
    · rw [if_neg h]
      simp only [List.find?, h]
      exact ih

/-- The outcome of a failure status write when the status update
succeeds. -/
theorem setCondition_false_eq (k : K8sEnv) (a : SecuredApplication)
    (reason message : String) (tr : List Call)
    (hsu : ∀ u, k.statusUpdate u = .ok ()) :
    setCondition k a false reason message tr =
      { app := { a with status :=
          { a.status with
            ready := false
            conditions := setStatusCondition a.status.conditions
              ⟨"Ready", false, reason, message⟩ } }
        result := .requeueAfter 60, err := none, trace := tr } := by
  simp [setCondition, hsu]

/-- The outcome of the success status write when the status update
succeeds. -/
theorem setCondition_true_eq (k : K8sEnv) (a : SecuredApplication)
    (reason message : String) (tr : List Call)
    (hsu : ∀ u, k.statusUpdate u = .ok ()) :
    setCondition k a true reason message tr =
      { app := { a with status :=
          { a.status with
            conditions := setStatusCondition a.status.conditions
              ⟨"Ready", true, reason, message⟩ } }
        result := .done, err := none, trace := tr } := by
  simp [setCondition, hsu]

/-- Every failure status write yields the failure shape. -/
theorem failureOutcome_setCondition (k : K8sEnv) (a : SecuredApplication)
    (reason message : String) (tr : List Call)
    (hsu : ∀ u, k.statusUpdate u = .ok ()) :
    FailureOutcome (setCondition k a false reason message tr) := by
  rw [setCondition_false_eq k a reason message tr hsu]
  exact ⟨rfl, rfl, rfl, reason, message,
    readyCond_setStatusCondition a.status.conditions false reason message⟩

/-- The success status write on an object whose status is already marked
ready yields the success shape. -/
theorem successOutcome_setCondition (k : K8sEnv) (a : SecuredApplication)
    (tr : List Call) (hr : a.status.ready = true)
    (hsu : ∀ u, k.statusUpdate u = .ok ()) :
    SuccessOutcome (setCondition k a true "Reconciled"
      "All resources are up to date" tr) := by
  rw [setCondition_true_eq k a _ _ tr hsu]
  exact ⟨rfl, rfl, hr,
    readyCond_setStatusCondition a.status.conditions true _ _⟩

/-- A live pass with the finalizer already present starts the pipeline. -/
theorem reconcile_live (cfg : Config) (z : ZitadelEnv) (cf : CFEnv) (k : K8sEnv)
    (app : SecuredApplication) (hlive : app.deletionTimestampIsZero = true)
    (hfin : app.finalizers.contains finalizerName = true) :
    Reconcile cfg z cf k app = projectPhase cfg z cf k app := by
  have hfin' : finalizerName ∈ app.finalizers := by simpa using hfin
  simp [Reconcile, hlive, hfin']

/-- A pass on an object marked for removal runs only the teardown. -/
theorem reconcile_deletion (cfg : Config) (z : ZitadelEnv) (cf : CFEnv)
    (k : K8sEnv) (app : SecuredApplication)
    (hdel : app.deletionTimestampIsZero = false) :
    Reconcile cfg z cf k app = handleDeletion z cf k app := by
  simp [Reconcile, hdel]

/-- C1 (counterexample): a convergence pass over a descriptor whose route
specification is absent (`spec.ingress = none`, nothing requesting a
route) still creates the routing object: the Ingress write occurs. -/
theorem claim1_counterexample :
    appEx.spec.ingress = none
    ∧ Call.ingressWrite (buildIngress appEx)
        ∈ (Reconcile cfgEx zEnvEx cfEnvEx kEnvEx appEx).trace := by
  constructor
  · rfl
  · decide

/-- C1 (amended): every convergence pass that reaches the route step
converges the route object, unconditionally — the descriptor's route
section does not gate the Ingress write. -/
theorem claim1_route_always_converged (cfg : Config) (z : ZitadelEnv)
    (cf : CFEnv) (k : K8sEnv) (app : SecuredApplication)
    (project : Zitadel.Project) (existingRoles : List Zitadel.Role)
    (oidcApp : Zitadel.App) (zTr pTr : List Call)
    (policy : Cloudflare.AccessPolicy)
    (hlive : app.deletionTimestampIsZero = true)
    (hfin : app.finalizers.contains finalizerName = true)
    (hproj : z.getProjectByName app.spec.access.project = .ok (some project))
    (hroles : z.listProjectRoles project.id = .ok existingRoles)
    (hmiss : firstMissingRole app.spec.access.roles
      (existingRoles.map Zitadel.Role.key) = none)
    (hz : reconcileZitadelApp z app project.id = (zTr, .ok (oidcApp, "")))
    (haid : app.status.accessApplicationID ≠ "")
    (hupd : cf.updateAccessApp app.status.accessApplicationID app.name
      app.spec.host cfg.sessionDuration = .ok ())
    (hpol : upsertAccessPolicy cf app.status.accessApplicationID
      app.status.accessPolicyID (rulesOf cfg app) = (pTr, .ok policy)) :
    Call.ingressWrite (buildIngress app)
      ∈ (Reconcile cfg z cf k app).trace := by
  rw [reconcile_pinned_to_oidc cfg z cf k app project existingRoles hlive hfin
    hproj hroles hmiss]
  rw [oidcPhase_pinned cfg z cf k app project oidcApp zTr hz]
  rw [accessAppPhase_known cfg cf k app project oidcApp zTr haid]
  rw [accessAppConverge_update cfg cf k app project oidcApp _ _ haid hupd]
  rw [policyPhase_pinned cfg cf k app project oidcApp _ pTr policy _ hpol]
  rw [ingressPhase_trace]
  exact List.mem_append_right _ (List.mem_singleton.mpr rfl)

/-- Witness for C1 (amended) at the steady-state fixture, whose spec
requests no route. -/
theorem claim1_witness :
    appSteady.spec.ingress = none
    ∧ Call.ingressWrite (buildIngress appSteady)
        ∈ (Reconcile cfgEx zEnvEx cfEnvEx kEnvEx appSteady).trace :=
  ⟨rfl,
    claim1_route_always_converged cfgEx zEnvEx cfEnvEx kEnvEx appSteady
      ⟨"p1", "infra"⟩ [⟨"admin", "Admin"⟩] ⟨"z1", "client1", ""⟩
      [Call.zUpdateApp "p1" "z1" (buildAppConfig appSteady)]
      [Call.cfUpdatePolicy "a1" "pol1" (policyBodyOf cfgEx appSteady)]
      ⟨"pol1"⟩ rfl rfl rfl rfl rfl rfl (by decide) rfl rfl⟩

/-- C5: a pass whose descriptor requests a role absent from the resolved
project's role list fails with reason `RoleNotFound`, issues no adapter
mutation call at all (empty mutation trace), and requeues. -/
theorem claim5_role_gate (cfg : Config) (z : ZitadelEnv) (cf : CFEnv)
    (k : K8sEnv) (app : SecuredApplication) (project : Zitadel.Project)
    (existingRoles : List Zitadel.Role) (req : String)
    (hlive : app.deletionTimestampIsZero = true)
    (hfin : app.finalizers.contains finalizerName = true)
    (hsu : ∀ u, k.statusUpdate u = .ok ())
    (hproj : z.getProjectByName app.spec.access.project = .ok (some project))
    (hroles : z.listProjectRoles project.id = .ok existingRoles)
    (hreq : req ∈ app.spec.access.roles)
    (hmiss : req ∉ existingRoles.map Zitadel.Role.key) :
    (Reconcile cfg z cf k app).trace = []
    ∧ (Reconcile cfg z cf k app).result = .requeueAfter 60
    ∧ ∃ message, ReadyCond (Reconcile cfg z cf k app).app
        = some ⟨"Ready", false, "RoleNotFound", message⟩ := by
  obtain ⟨m, hm⟩ : ∃ m, firstMissingRole app.spec.access.roles
      (existingRoles.map Zitadel.Role.key) = some m := by
    have hp : (!((existingRoles.map Zitadel.Role.key).contains req)) = true := by
      simp [hmiss]
    exact Option.isSome_iff_exists.mp
      (List.find?_isSome.mpr ⟨req, hreq, hp⟩)
  rw [reconcile_live cfg z cf k app hlive hfin]
  have hred : projectPhase cfg z cf k app
      = setCondition k app false "RoleNotFound"
          ("role \"" ++ m ++ "\" does not exist in Zitadel project \""
            ++ app.spec.access.project ++ "\"") [] := by
    simp [projectPhase, hproj, hroles, hm]
  rw [hred, setCondition_false_eq k app _ _ _ hsu]
  exact ⟨rfl, rfl, _,
    readyCond_setStatusCondition app.status.conditions false _ _⟩

/-- Witness for C5 at the fixture requesting the nonexistent role
"ghost". -/
theorem claim5_witness :
    (Reconcile cfgEx zEnvEx cfEnvEx kEnvEx appMissingRole).trace = []
    ∧ (Reconcile cfgEx zEnvEx cfEnvEx kEnvEx appMissingRole).result
        = .requeueAfter 60
    ∧ ∃ message, ReadyCond (Reconcile cfgEx zEnvEx cfEnvEx kEnvEx
        appMissingRole).app = some ⟨"Ready", false, "RoleNotFound", message⟩ :=
  claim5_role_gate cfgEx zEnvEx cfEnvEx kEnvEx appMissingRole
    ⟨"p1", "infra"⟩ [⟨"admin", "Admin"⟩] "ghost" rfl rfl (fun _ => rfl)
    rfl rfl (by decide) (by decide)

/-- Of the call kinds a pass can add after the Zitadel step, none is an
Access-Application create. -/
theorem not_createAccessApp_of (c : Call)
    (h : c.isZitadelAppCall = true ∨ c.isPolicyCall = true
      ∨ c.isIngressWrite = true) : c.isCFCreateAccessApp = false := by
  cases c <;> simp_all [Call.isZitadelAppCall, Call.isPolicyCall,
    Call.isIngressWrite, Call.isCFCreateAccessApp]

/-- Of the call kinds outside the credential write, none is a Secret
write. -/
theorem not_secretWrite_of (c : Call)
    (h : c.isZitadelAppCall = true ∨ c.isCFAppMutation = true
      ∨ c.isPolicyCall = true ∨ c.isIngressWrite = true
      ∨ c.isDeleteCall = true) : c.isSecretWrite = false := by
  cases c <;> simp_all [Call.isZitadelAppCall, Call.isCFAppMutation,
    Call.isPolicyCall, Call.isIngressWrite, Call.isDeleteCall,
    Call.isSecretWrite]

/-- C7: the access-policy upsert of a pass carries exactly one inline OIDC
claim rule per required role — each with the configured identity-provider
ID, the fixed claim name "custom:roles", and the role as claim value —
under a single decision="allow" with precedence=1; the rule set is the
full list, replacing the previous policy body; the call is an in-place
update when a policy ID is known and a create otherwise. -/
theorem claim7_policy_rules (cfg : Config) (z : ZitadelEnv) (cf : CFEnv)
    (k : K8sEnv) (app : SecuredApplication) (project : Zitadel.Project)
    (existingRoles : List Zitadel.Role) (oidcApp : Zitadel.App) (zTr : List Call)
    (hlive : app.deletionTimestampIsZero = true)
    (hfin : app.finalizers.contains finalizerName = true)
    (hproj : z.getProjectByName app.spec.access.project = .ok (some project))
    (hroles : z.listProjectRoles project.id = .ok existingRoles)
    (hmiss : firstMissingRole app.spec.access.roles
      (existingRoles.map Zitadel.Role.key) = none)
    (hz : reconcileZitadelApp z app project.id = (zTr, .ok (oidcApp, "")))
    (haid : app.status.accessApplicationID ≠ "")
    (hupd : cf.updateAccessApp app.status.accessApplicationID app.name
      app.spec.host cfg.sessionDuration = .ok ())
    (_hrne : app.spec.access.roles ≠ []) :
    policyBodyOf cfg app =
      { name := "Allow Zitadel roles", decision := "allow", precedence := 1
        includeRules := app.spec.access.roles.map
          (fun role => ⟨cfg.cloudflareIdPID, "custom:roles", role⟩) }
    ∧ (app.status.accessPolicyID ≠ "" →
        Call.cfUpdatePolicy app.status.accessApplicationID
          app.status.accessPolicyID (policyBodyOf cfg app)
          ∈ (Reconcile cfg z cf k app).trace)
    ∧ (app.status.accessPolicyID = "" →
        Call.cfCreatePolicy app.status.accessApplicationID (policyBodyOf cfg app)
          ∈ (Reconcile cfg z cf k app).trace) := by
  have hchain : Reconcile cfg z cf k app
      = policyPhase cfg cf k app project oidcApp app.status.accessApplicationID
          (zTr ++ [.cfUpdateAccessApp app.status.accessApplicationID app.name
            app.spec.host cfg.sessionDuration]) := by
    rw [reconcile_pinned_to_oidc cfg z cf k app project existingRoles hlive hfin
      hproj hroles hmiss]
    rw [oidcPhase_pinned cfg z cf k app project oidcApp zTr hz]
    rw [accessAppPhase_known cfg cf k app project oidcApp zTr haid]
    rw [accessAppConverge_update cfg cf k app project oidcApp _ _ haid hupd]
  refine ⟨rfl, ?_, ?_⟩
  · intro hp
    rw [hchain]
    exact policyPhase_mem_update cfg cf k app project oidcApp _ _ hp
  · intro hp
    rw [hchain]
    exact policyPhase_mem_create cfg cf k app project oidcApp _ _ hp

/-- Witness for C7 at the steady-state fixture (known policy ID). -/
theorem claim7_witness :
    appSteady.spec.access.roles = ["admin"]
    ∧ Call.cfUpdatePolicy "a1" "pol1" (policyBodyOf cfgEx appSteady)
        ∈ (Reconcile cfgEx zEnvEx cfEnvEx kEnvEx appSteady).trace :=
  ⟨rfl,
    (claim7_policy_rules cfgEx zEnvEx cfEnvEx kEnvEx appSteady
      ⟨"p1", "infra"⟩ [⟨"admin", "Admin"⟩] ⟨"z1", "client1", ""⟩
      [Call.zUpdateApp "p1" "z1" (buildAppConfig appSteady)]
      rfl rfl rfl rfl rfl rfl (by decide) rfl (by decide)).2.1 (by decide)⟩

/-- C8: with no recorded access-application ID and a domain lookup that
returns a match, the pass adopts the match — it updates under the found
ID and issues no Access-Application create call. -/
theorem claim8_adoption (cfg : Config) (z : ZitadelEnv) (cf : CFEnv)
    (k : K8sEnv) (app : SecuredApplication) (project : Zitadel.Project)
    (existingRoles : List Zitadel.Role) (oidcApp : Zitadel.App) (zTr : List Call)
    (existing : Cloudflare.AccessApp)
    (hlive : app.deletionTimestampIsZero = true)
    (hfin : app.finalizers.contains finalizerName = true)
    (hproj : z.getProjectByName app.spec.access.project = .ok (some project))
    (hroles : z.listProjectRoles project.id = .ok existingRoles)
    (hmiss : firstMissingRole app.spec.access.roles
      (existingRoles.map Zitadel.Role.key) = none)
    (hz : reconcileZitadelApp z app project.id = (zTr, .ok (oidcApp, "")))
    (haid : app.status.accessApplicationID = "")
    (hfind : cf.findAccessAppByDomain app.spec.host = .ok (some existing))
    (hexid : existing.id ≠ "") :
    Call.cfUpdateAccessApp existing.id app.name app.spec.host cfg.sessionDuration
      ∈ (Reconcile cfg z cf k app).trace
    ∧ ∀ c ∈ (Reconcile cfg z cf k app).trace, c.isCFCreateAccessApp = false := by
  have hchain : Reconcile cfg z cf k app
      = accessAppConverge cfg cf k app project oidcApp existing.id zTr := by
    rw [reconcile_pinned_to_oidc cfg z cf k app project existingRoles hlive hfin
      hproj hroles hmiss]
    rw [oidcPhase_pinned cfg z cf k app project oidcApp zTr hz]
    rw [accessAppPhase_adopt cfg cf k app project oidcApp existing zTr haid hfind]
  constructor
  · rw [hchain]
    exact accessAppConverge_mem_update cfg cf k app project oidcApp
      existing.id zTr hexid
  · intro c hc
    rw [hchain] at hc
    rcases mem_accessAppConverge_known cfg cf k app project oidcApp existing.id
      zTr c hexid hc with h | h | h | h
    · have hmem : c ∈ (reconcileZitadelApp z app project.id).1 := by
        rw [hz]
        exact h
      exact not_createAccessApp_of c
        (Or.inl (mem_reconcileZitadelApp z app project.id c hmem))
    · rw [h]
      rfl
    · exact not_createAccessApp_of c (Or.inr (Or.inl h))
    · exact not_createAccessApp_of c (Or.inr (Or.inr h))

/-- Witness for C8 at the fixture with an unset access-application ID and
a domain match "a9": the update under "a9" occurs, the create does not. -/
theorem claim8_witness :
    Call.cfUpdateAccessApp "a9" "wiki" "wiki.example.com" "24h"
      ∈ (Reconcile cfgEx zEnvEx cfEnvAdopt kEnvEx appC8).trace
    ∧ Call.cfCreateAccessApp "wiki" "wiki.example.com" "24h"
        ∉ (Reconcile cfgEx zEnvEx cfEnvAdopt kEnvEx appC8).trace := by
  have h := claim8_adoption cfgEx zEnvEx cfEnvAdopt kEnvEx appC8
    ⟨"p1", "infra"⟩ [⟨"admin", "Admin"⟩] ⟨"z1", "client1", ""⟩
    [Call.zUpdateApp "p1" "z1" (buildAppConfig appC8)] ⟨"a9", "wiki"⟩
    rfl rfl rfl rfl rfl rfl rfl rfl (by decide)
  exact ⟨h.1, fun hmem => by
    have hfalse := h.2 _ hmem
    simp [Call.isCFCreateAccessApp] at hfalse⟩

/-- With an empty client secret the credential write is skipped
entirely. -/
theorem secretPhase_empty (cfg : Config) (cf : CFEnv) (k : K8sEnv)
    (a : SecuredApplication) (project : Zitadel.Project) (oidcApp : Zitadel.App)
    (tr : List Call) :
    secretPhase cfg cf k a project oidcApp "" tr
      = accessAppPhase cfg cf k a project oidcApp tr := by
  simp [secretPhase]

/-- On a pass whose Zitadel step takes the update or adopt path, no call
of the OIDC step and beyond is a credential write. -/
theorem mem_oidcPhase_secretFree (cfg : Config) (z : ZitadelEnv) (cf : CFEnv)
    (k : K8sEnv) (a : SecuredApplication) (project : Zitadel.Project)
    (hyp : a.status.zitadelAppID ≠ ""
      ∨ ∀ pid, ∃ ex, z.getAppByName pid a.name = .ok (some ex))
    (c : Call) (hc : c ∈ (oidcPhase cfg z cf k a project).trace) :
    c.isSecretWrite = false := by
  rcases hres : reconcileZitadelApp z a project.id with ⟨zTr, zRes⟩
  simp only [oidcPhase, hres] at hc
  have hzmem : ∀ x, x ∈ zTr → x.isZitadelAppCall = true := by
    intro x hx
    refine mem_reconcileZitadelApp z a project.id x ?_
    rw [hres]
    exact hx
  cases zRes with
  | error e =>
    rw [setCondition_trace] at hc
    exact not_secretWrite_of c (Or.inl (hzmem c hc))
  | ok pr =>
    obtain ⟨oapp, sec⟩ := pr
    have hsec : sec = "" := by
      have hok : (reconcileZitadelApp z a project.id).2 = .ok (oapp, sec) := by
        rw [hres]
      by_cases hzid : a.status.zitadelAppID ≠ ""
      · exact reconcileZitadelApp_secret_update z a project.id (oapp, sec) hzid hok
      · have hzid' : a.status.zitadelAppID = "" := by
          by_contra hne
          exact hzid hne
        rcases hyp with h | h
        · exact absurd h hzid
        · obtain ⟨ex, hex⟩ := h project.id
          exact reconcileZitadelApp_secret_adopt z a project.id ex (oapp, sec)
            hzid' hex hok
    rw [hsec] at hc
    dsimp only at hc
    rw [secretPhase_empty] at hc
    rcases mem_accessAppPhase cfg cf k a project oapp zTr c hc with h | h | h | h
    · exact not_secretWrite_of c (Or.inl (hzmem c h))
    · exact not_secretWrite_of c (Or.inr (Or.inl h))
    · exact not_secretWrite_of c (Or.inr (Or.inr (Or.inl h)))
    · exact not_secretWrite_of c (Or.inr (Or.inr (Or.inr (Or.inl h))))

/-- On a pass whose Zitadel step takes the update or adopt path, no call
of the pipeline is a credential write. -/
theorem mem_projectPhase_secretFree (cfg : Config) (z : ZitadelEnv) (cf : CFEnv)
    (k : K8sEnv) (a : SecuredApplication)
    (hyp : a.status.zitadelAppID ≠ ""
      ∨ ∀ pid, ∃ ex, z.getAppByName pid a.name = .ok (some ex))
    (c : Call) (hc : c ∈ (projectPhase cfg z cf k a).trace) :
    c.isSecretWrite = false := by
  simp only [projectPhase] at hc
  cases hp : z.getProjectByName a.spec.access.project with
  | error e =>
    rw [hp, setCondition_trace] at hc
    exact absurd hc (List.not_mem_nil c)
  | ok found =>
    cases found with
    | none =>
      simp only [hp, setCondition_trace] at hc
      exact absurd hc (List.not_mem_nil c)
    | some project =>
      simp only [hp] at hc
      cases hr : z.listProjectRoles project.id with
      | error e =>
        rw [hr, setCondition_trace] at hc
        exact absurd hc (List.not_mem_nil c)
      | ok existingRoles =>
        simp only [hr] at hc
        cases hm : firstMissingRole a.spec.access.roles
            (existingRoles.map Zitadel.Role.key) with
        | some m =>
          rw [hm, setCondition_trace] at hc
          exact absurd hc (List.not_mem_nil c)
        | none =>
          rw [hm] at hc
          exact mem_oidcPhase_secretFree cfg z cf k a project hyp c hc

/-- C4: the OIDC client secret is produced only on the creation path. On
the update path (app ID in status) and the adopt path (application found
by name) the returned secret is empty, and on any pass taking one of
those paths the credential-object write is skipped — no Secret write
appears in the mutation trace. -/
theorem claim4_secret_single_path :
    (∀ (z : ZitadelEnv) (a : SecuredApplication) (projectID : String)
      (pr : Zitadel.App × String), a.status.zitadelAppID ≠ "" →
      (reconcileZitadelApp z a projectID).2 = .ok pr → pr.2 = "")
    ∧ (∀ (z : ZitadelEnv) (a : SecuredApplication) (projectID : String)
      (existing : Zitadel.App) (pr : Zitadel.App × String),
      a.status.zitadelAppID = "" →
      z.getAppByName projectID a.name = .ok (some existing) →
      (reconcileZitadelApp z a projectID).2 = .ok pr → pr.2 = "")
    ∧ (∀ (cfg : Config) (z : ZitadelEnv) (cf : CFEnv) (k : K8sEnv)
      (a : SecuredApplication),
      (a.status.zitadelAppID ≠ ""
        ∨ ∀ pid, ∃ ex, z.getAppByName pid a.name = .ok (some ex)) →
      ∀ c ∈ (Reconcile cfg z cf k a).trace, c.isSecretWrite = false) := by
  refine ⟨fun z a pid pr h1 h2 =>
      reconcileZitadelApp_secret_update z a pid pr h1 h2,
    fun z a pid ex pr h1 h2 h3 =>
      reconcileZitadelApp_secret_adopt z a pid ex pr h1 h2 h3,
    fun cfg z cf k a hyp c hc => ?_⟩
  by_cases hlive : a.deletionTimestampIsZero = true
  · by_cases hfin : a.finalizers.contains finalizerName = true
    · rw [reconcile_live cfg z cf k a hlive hfin] at hc
      exact mem_projectPhase_secretFree cfg z cf k a hyp c hc
    · have hfin' : a.finalizers.contains finalizerName = false := by
        cases h : a.finalizers.contains finalizerName
        · rfl
        · exact absurd h hfin
      simp only [Reconcile, hlive, hfin', if_true, Bool.false_eq_true,
        if_false] at hc
      cases hk : k.update { a with
          deletionTimestampIsZero := true
          finalizers := a.finalizers ++ [finalizerName] } with
      | error e =>
        simp only [hk] at hc
        exact absurd hc (List.not_mem_nil c)
      | ok u =>
        simp only [hk] at hc
        exact mem_projectPhase_secretFree cfg z cf k
          { a with
            deletionTimestampIsZero := true
            finalizers := a.finalizers ++ [finalizerName] } hyp c hc
  · have hlive' : a.deletionTimestampIsZero = false := by
      cases h : a.deletionTimestampIsZero
      · rfl
      · exact absurd h hlive
    rw [reconcile_deletion cfg z cf k a hlive'] at hc
    exact not_secretWrite_of c (Or.inr (Or.inr (Or.inr (Or.inr
      (mem_handleDeletion z cf k a c hc)))))

/-- Witness for C4: a steady-state pass (update path) issues no Secret
write. -/
theorem claim4_witness :
    appSteady.status.zitadelAppID ≠ ""
    ∧ Call.secretWrite ⟨"wiki-oidc", "default", "client1", "sec1"⟩
        ∉ (Reconcile cfgEx zEnvEx cfEnvEx kEnvEx appSteady).trace := by
  refine ⟨by decide, fun hmem => ?_⟩
  have h := claim4_secret_single_path.2.2 cfgEx zEnvEx cfEnvEx kEnvEx appSteady
    (Or.inl (by decide)) _ hmem
  simp [Call.isSecretWrite] at h

/-- The teardown marker never survives the filter that removes it. -/
theorem finalizer_not_mem_filter (l : List String) :
    finalizerName ∉ l.filter (fun f => f != finalizerName) := by
  intro h
  have h2 := (List.mem_filter.mp h).2
  simp at h2

/-- Removing the finalizer, when the object update succeeds. -/
theorem removeFinalizerAndUpdate_eq (k : K8sEnv) (a : SecuredApplication)
    (tr : List Call) (hupd : ∀ u, k.update u = .ok ()) :
    removeFinalizerAndUpdate k a tr =
      { app := { a with finalizers := a.finalizers.filter (fun f => f != finalizerName) }
        result := .done, err := none, trace := tr } := by
  simp [removeFinalizerAndUpdate, hupd]

/-- Teardown's Cloudflare part keeps every call already traced. -/
theorem deleteCFPhase_mono (cf : CFEnv) (k : K8sEnv) (a : SecuredApplication)
    (tr : List Call) (c : Call) (hc : c ∈ tr) :
    c ∈ (deleteCFPhase cf k a tr).trace := by
  simp only [deleteCFPhase]
  by_cases haid : a.status.accessApplicationID ≠ ""
  · rw [if_pos haid]
    cases hcf : cf.deleteAccessApp a.status.accessApplicationID with
    | error e => exact List.mem_append_left _ hc
    | ok u =>
      rw [removeFinalizerAndUpdate_trace]
      exact List.mem_append_left _ hc
  · rw [if_neg haid, removeFinalizerAndUpdate_trace]
    exact hc

/-- With an access-application ID recorded, teardown's Cloudflare part
always issues the delete call for it. -/
theorem deleteCFPhase_mem (cf : CFEnv) (k : K8sEnv) (a : SecuredApplication)
    (tr : List Call) (haid : a.status.accessApplicationID ≠ "") :
    Call.cfDeleteAccessApp a.status.accessApplicationID
      ∈ (deleteCFPhase cf k a tr).trace := by
  simp only [deleteCFPhase, if_pos haid]
  cases hcf : cf.deleteAccessApp a.status.accessApplicationID with
  | error e => exact List.mem_append_right _ (List.mem_singleton.mpr rfl)
  | ok u =>
    rw [removeFinalizerAndUpdate_trace]
    exact List.mem_append_right _ (List.mem_singleton.mpr rfl)

/-- A failed Cloudflare delete requeues after 30 seconds and keeps the
object untouched. -/
theorem deleteCFPhase_err (cf : CFEnv) (k : K8sEnv) (a : SecuredApplication)
    (tr : List Call) (e : String) (haid : a.status.accessApplicationID ≠ "")
    (hcf : cf.deleteAccessApp a.status.accessApplicationID = .error e) :
    deleteCFPhase cf k a tr =
      { app := a, result := .requeueAfter 30, err := none
        trace := tr ++ [.cfDeleteAccessApp a.status.accessApplicationID] } := by
  simp [deleteCFPhase, haid, hcf]

/-- When the Cloudflare delete is skipped or succeeds, teardown removes
the finalizer. -/
theorem deleteCFPhase_removes (cf : CFEnv) (k : K8sEnv) (a : SecuredApplication)
    (tr : List Call) (hupd : ∀ u, k.update u = .ok ())
    (h : a.status.accessApplicationID = ""
      ∨ cf.deleteAccessApp a.status.accessApplicationID = .ok ()) :
    (deleteCFPhase cf k a tr).app.finalizers
      = a.finalizers.filter (fun f => f != finalizerName) := by
  rcases h with h | h
  · simp [deleteCFPhase, h, removeFinalizerAndUpdate_eq k a tr hupd]
  · by_cases haid : a.status.accessApplicationID ≠ ""
    · simp only [deleteCFPhase, if_pos haid, h,
        removeFinalizerAndUpdate_eq k a _ hupd]
    · simp only [deleteCFPhase, if_neg haid,
        removeFinalizerAndUpdate_eq k a tr hupd]

/-- C3 (counterexample): a descriptor marked for removal, finalizer
present, `deleteProtection=false`, whose status has an OIDC app ID but no
project ID: the engine attempts no deletion at all (empty trace) and
removes the marker anyway — refuting "attempts to delete the OIDC
application whenever oidcAppID is set". -/
theorem claim3_counterexample :
    appDelZOnly.status.zitadelAppID ≠ ""
    ∧ appDelZOnly.spec.deleteProtection = false
    ∧ (Reconcile cfgEx zEnvEx cfEnvEx kEnvEx appDelZOnly).trace = []
    ∧ finalizerName
        ∉ (Reconcile cfgEx zEnvEx cfEnvEx kEnvEx appDelZOnly).app.finalizers := by
  refine ⟨by decide, rfl, by decide, by decide⟩

/-- C3 (amended): teardown with the marker present. With
`deleteProtection=false` the engine attempts the OIDC delete whenever
both `oidcAppID` and the resolved project ID are set (not on `oidcAppID`
alone), and the access delete whenever its ID is set; any delete failure
keeps the marker and requeues after 30 seconds; the marker is removed
only once both deletes succeed or are skipped. With
`deleteProtection=true` neither delete call is issued and the marker is
removed. -/
theorem claim3_teardown (cfg : Config) (z : ZitadelEnv) (cf : CFEnv)
    (k : K8sEnv) (app : SecuredApplication)
    (hdel : app.deletionTimestampIsZero = false)
    (hfin : app.finalizers.contains finalizerName = true)
    (hupd : ∀ u, k.update u = .ok ()) :
    (app.spec.deleteProtection = true →
      (Reconcile cfg z cf k app).trace = []
      ∧ finalizerName ∉ (Reconcile cfg z cf k app).app.finalizers)
    ∧ (app.spec.deleteProtection = false → app.status.zitadelAppID ≠ "" →
      app.status.projectID ≠ "" →
      Call.zDeleteApp app.status.projectID app.status.zitadelAppID
        ∈ (Reconcile cfg z cf k app).trace)
    ∧ (∀ e, app.spec.deleteProtection = false → app.status.zitadelAppID ≠ "" →
      app.status.projectID ≠ "" →
      z.deleteApp app.status.projectID app.status.zitadelAppID = .error e →
      (Reconcile cfg z cf k app).result = .requeueAfter 30
      ∧ finalizerName ∈ (Reconcile cfg z cf k app).app.finalizers)
    ∧ (app.spec.deleteProtection = false → app.status.accessApplicationID ≠ "" →
      (app.status.zitadelAppID = "" ∨ app.status.projectID = ""
        ∨ z.deleteApp app.status.projectID app.status.zitadelAppID = .ok ()) →
      Call.cfDeleteAccessApp app.status.accessApplicationID
        ∈ (Reconcile cfg z cf k app).trace)
    ∧ (∀ e, app.spec.deleteProtection = false →
      app.status.accessApplicationID ≠ "" →
      (app.status.zitadelAppID = "" ∨ app.status.projectID = ""
        ∨ z.deleteApp app.status.projectID app.status.zitadelAppID = .ok ()) →
      cf.deleteAccessApp app.status.accessApplicationID = .error e →
      (Reconcile cfg z cf k app).result = .requeueAfter 30
      ∧ finalizerName ∈ (Reconcile cfg z cf k app).app.finalizers)
    ∧ (app.spec.deleteProtection = false →
      (app.status.zitadelAppID = "" ∨ app.status.projectID = ""
        ∨ z.deleteApp app.status.projectID app.status.zitadelAppID = .ok ()) →
      (app.status.accessApplicationID = ""
        ∨ cf.deleteAccessApp app.status.accessApplicationID = .ok ()) →
      finalizerName ∉ (Reconcile cfg z cf k app).app.finalizers) := by
  have hfinmem : finalizerName ∈ app.finalizers := by simpa using hfin
  rw [reconcile_deletion cfg z cf k app hdel]
  refine ⟨?_, ?_, ?_, ?_, ?_, ?_⟩
  · intro hdp
    simp only [handleDeletion, hfin, if_true, hdp,
      removeFinalizerAndUpdate_eq k app [] hupd]
    exact ⟨by trivial, finalizer_not_mem_filter app.finalizers⟩
  · intro hdp hzid hpid
    simp only [handleDeletion, hfin, if_true, hdp, Bool.false_eq_true,
      if_false, if_pos (And.intro hzid hpid)]
    cases hd : z.deleteApp app.status.projectID app.status.zitadelAppID with
    | error e => exact List.mem_singleton.mpr rfl
    | ok u =>
      exact deleteCFPhase_mono cf k app _ _ (List.mem_singleton.mpr rfl)
  · intro e hdp hzid hpid hd
    simp only [handleDeletion, hfin, if_true, hdp, Bool.false_eq_true,
      if_false, if_pos (And.intro hzid hpid), hd]
    exact ⟨by trivial, hfinmem⟩
  · intro hdp haid hsk
    simp only [handleDeletion, hfin, if_true, hdp, Bool.false_eq_true, if_false]
    by_cases hcond : app.status.zitadelAppID ≠ "" ∧ app.status.projectID ≠ ""
    · rw [if_pos hcond]
      rcases hsk with h | h | h
      · exact absurd h hcond.1
      · exact absurd h hcond.2
      · rw [h]
        exact deleteCFPhase_mem cf k app _ haid
    · rw [if_neg hcond]
      exact deleteCFPhase_mem cf k app [] haid
  · intro e hdp haid hsk hcf
    simp only [handleDeletion, hfin, if_true, hdp, Bool.false_eq_true, if_false]
    by_cases hcond : app.status.zitadelAppID ≠ "" ∧ app.status.projectID ≠ ""
    · rw [if_pos hcond]
      rcases hsk with h | h | h
      · exact absurd h hcond.1
      · exact absurd h hcond.2
      · rw [h, deleteCFPhase_err cf k app _ e haid hcf]
        exact ⟨by trivial, hfinmem⟩
    · rw [if_neg hcond, deleteCFPhase_err cf k app [] e haid hcf]
      exact ⟨by trivial, hfinmem⟩
  · intro hdp hsk1 hsk2
    simp only [handleDeletion, hfin, if_true, hdp, Bool.false_eq_true, if_false]
    by_cases hcond : app.status.zitadelAppID ≠ "" ∧ app.status.projectID ≠ ""
    · rw [if_pos hcond]
      rcases hsk1 with h | h | h
      · exact absurd h hcond.1
      · exact absurd h hcond.2
      · rw [h]
        rw [deleteCFPhase_removes cf k app _ hupd hsk2]
        exact finalizer_not_mem_filter app.finalizers
    · rw [if_neg hcond]
      rw [deleteCFPhase_removes cf k app [] hupd hsk2]
      exact finalizer_not_mem_filter app.finalizers

/-- Witness for C3 (amended): with every identifier recorded and all
deletes succeeding, both delete calls are issued and the marker is
removed; with protection enabled, no call is issued. -/
theorem claim3_witness :
    (Call.zDeleteApp "p1" "z1"
        ∈ (Reconcile cfgEx zEnvEx cfEnvEx kEnvEx appDelFull).trace
      ∧ Call.cfDeleteAccessApp "a1"
        ∈ (Reconcile cfgEx zEnvEx cfEnvEx kEnvEx appDelFull).trace
      ∧ finalizerName
        ∉ (Reconcile cfgEx zEnvEx cfEnvEx kEnvEx appDelFull).app.finalizers)
    ∧ ((Reconcile cfgEx zEnvEx cfEnvEx kEnvEx appDelProt).trace = []
      ∧ finalizerName
        ∉ (Reconcile cfgEx zEnvEx cfEnvEx kEnvEx appDelProt).app.finalizers) := by
  have h1 := claim3_teardown cfgEx zEnvEx cfEnvEx kEnvEx appDelFull rfl rfl
    (fun _ => rfl)
  have h2 := claim3_teardown cfgEx zEnvEx cfEnvEx kEnvEx appDelProt rfl rfl
    (fun _ => rfl)
  exact ⟨⟨h1.2.1 rfl (by decide) (by decide),
      h1.2.2.2.1 rfl (by decide) (Or.inr (Or.inr rfl)),
      h1.2.2.2.2.2 rfl (Or.inr (Or.inr rfl)) (Or.inr rfl)⟩,
    h2.1 rfl⟩

/-- The route step ends in the success shape or the failure shape. -/
theorem ingressPhase_dichot (k : K8sEnv) (a : SecuredApplication)
    (project : Zitadel.Project) (oidcApp : Zitadel.App)
    (accessAppID policyID : String) (tr : List Call)
    (hsu : ∀ u, k.statusUpdate u = .ok ()) :
    SuccessOutcome (ingressPhase k a project oidcApp accessAppID policyID tr)
    ∨ FailureOutcome (ingressPhase k a project oidcApp accessAppID policyID tr) := by
  simp only [ingressPhase, reconcileIngress]
  split
  · exact Or.inr (failureOutcome_setCondition k a _ _ _ hsu)
  · exact Or.inl (successOutcome_setCondition k _ _ rfl hsu)

/-- The policy step ends in the success shape or the failure shape. -/
theorem policyPhase_dichot (cfg : Config) (cf : CFEnv) (k : K8sEnv)
    (a : SecuredApplication) (project : Zitadel.Project) (oidcApp : Zitadel.App)
    (accessAppID : String) (tr : List Call)
    (hsu : ∀ u, k.statusUpdate u = .ok ()) :
    SuccessOutcome (policyPhase cfg cf k a project oidcApp accessAppID tr)
    ∨ FailureOutcome (policyPhase cfg cf k a project oidcApp accessAppID tr) := by
  simp only [policyPhase, upsertAccessPolicy]
  by_cases hp : a.status.accessPolicyID ≠ ""
  · rw [if_pos hp]
    split
    · exact Or.inr (failureOutcome_setCondition k a _ _ _ hsu)
    · exact ingressPhase_dichot k a project oidcApp accessAppID _ _ hsu
  · rw [if_neg hp]
    split
    · exact Or.inr (failureOutcome_setCondition k a _ _ _ hsu)
    · exact ingressPhase_dichot k a project oidcApp accessAppID _ _ hsu

/-- The access-application converge step ends in one of the two shapes. -/
theorem accessAppConverge_dichot (cfg : Config) (cf : CFEnv) (k : K8sEnv)
    (a : SecuredApplication) (project : Zitadel.Project) (oidcApp : Zitadel.App)
    (accessAppID : String) (tr : List Call)
    (hsu : ∀ u, k.statusUpdate u = .ok ()) :
    SuccessOutcome (accessAppConverge cfg cf k a project oidcApp accessAppID tr)
    ∨ FailureOutcome (accessAppConverge cfg cf k a project oidcApp accessAppID tr) := by
  simp only [accessAppConverge]
  by_cases hne : accessAppID ≠ ""
  · rw [if_pos hne]
    split
    · exact Or.inr (failureOutcome_setCondition k a _ _ _ hsu)
    · exact policyPhase_dichot cfg cf k a project oidcApp accessAppID _ hsu
  · rw [if_neg hne]
    split
    · exact Or.inr (failureOutcome_setCondition k a _ _ _ hsu)
    · exact policyPhase_dichot cfg cf k a project oidcApp _ _ hsu

/-- The access-application lookup step ends in one of the two shapes. -/
theorem accessAppPhase_dichot (cfg : Config) (cf : CFEnv) (k : K8sEnv)
    (a : SecuredApplication) (project : Zitadel.Project) (oidcApp : Zitadel.App)
    (tr : List Call) (hsu : ∀ u, k.statusUpdate u = .ok ()) :
    SuccessOutcome (accessAppPhase cfg cf k a project oidcApp tr)
    ∨ FailureOutcome (accessAppPhase cfg cf k a project oidcApp tr) := by
  simp only [accessAppPhase]
  by_cases haid : a.status.accessApplicationID = ""
  · rw [if_pos haid]
    split
    · exact Or.inr (failureOutcome_setCondition k a _ _ _ hsu)
    · exact accessAppConverge_dichot cfg cf k a project oidcApp _ _ hsu
    · exact accessAppConverge_dichot cfg cf k a project oidcApp _ _ hsu
  · rw [if_neg haid]
    exact accessAppConverge_dichot cfg cf k a project oidcApp _ _ hsu

/-- The credential-write step ends in one of the two shapes. -/
theorem secretPhase_dichot (cfg : Config) (cf : CFEnv) (k : K8sEnv)
    (a : SecuredApplication) (project : Zitadel.Project) (oidcApp : Zitadel.App)
    (clientSecret : String) (tr : List Call)
    (hsu : ∀ u, k.statusUpdate u = .ok ()) :
    SuccessOutcome (secretPhase cfg cf k a project oidcApp clientSecret tr)
    ∨ FailureOutcome (secretPhase cfg cf k a project oidcApp clientSecret tr) := by
  simp only [secretPhase, writeCredentialSecret]
  by_cases hs : clientSecret ≠ ""
  · rw [if_pos hs]
    split
    · exact Or.inr (failureOutcome_setCondition k a _ _ _ hsu)
    · exact accessAppPhase_dichot cfg cf k a project oidcApp _ hsu
  · rw [if_neg hs]
    exact accessAppPhase_dichot cfg cf k a project oidcApp _ hsu

/-- The OIDC step ends in one of the two shapes. -/
theorem oidcPhase_dichot (cfg : Config) (z : ZitadelEnv) (cf : CFEnv)
    (k : K8sEnv) (a : SecuredApplication) (project : Zitadel.Project)
    (hsu : ∀ u, k.statusUpdate u = .ok ()) :
    SuccessOutcome (oidcPhase cfg z cf k a project)
    ∨ FailureOutcome (oidcPhase cfg z cf k a project) := by
  simp only [oidcPhase]
  split
  · exact Or.inr (failureOutcome_setCondition k a _ _ _ hsu)
  · exact secretPhase_dichot cfg cf k a project _ _ _ hsu

/-- The project and role steps end in one of the two shapes. -/
theorem projectPhase_dichot (cfg : Config) (z : ZitadelEnv) (cf : CFEnv)
    (k : K8sEnv) (a : SecuredApplication)
    (hsu : ∀ u, k.statusUpdate u = .ok ()) :
    SuccessOutcome (projectPhase cfg z cf k a)
    ∨ FailureOutcome (projectPhase cfg z cf k a) := by
  simp only [projectPhase]
  split
  · exact Or.inr (failureOutcome_setCondition k a _ _ _ hsu)
  · exact Or.inr (failureOutcome_setCondition k a _ _ _ hsu)
  · split
    · exact Or.inr (failureOutcome_setCondition k a _ _ _ hsu)
    · split
      · exact Or.inr (failureOutcome_setCondition k a _ _ _ hsu)
      · exact oidcPhase_dichot cfg z cf k a _ hsu

/-- C6: on a live pass with cluster writes succeeding, the outcome is
exactly one of two shapes — the success shape (no requeue, `ready=true`,
the success "Ready" condition) or the failure shape (bounded-delay
requeue, `ready=false`, a False "Ready" condition carrying a reason and
message), every failure being surfaced through the single status-write
operation; and the success step, reached when every invoked step
succeeded, persists all resolved identifiers and schedules no retry. -/
theorem claim6_status_surface :
    (∀ (cfg : Config) (z : ZitadelEnv) (cf : CFEnv) (k : K8sEnv)
      (app : SecuredApplication),
      app.deletionTimestampIsZero = true →
      (∀ u, k.update u = .ok ()) → (∀ u, k.statusUpdate u = .ok ()) →
      SuccessOutcome (Reconcile cfg z cf k app)
      ∨ FailureOutcome (Reconcile cfg z cf k app))
    ∧ (∀ (cfg : Config) (z : ZitadelEnv) (cf : CFEnv) (k : K8sEnv)
      (app : SecuredApplication) (project : Zitadel.Project)
      (existingRoles : List Zitadel.Role) (oidcApp : Zitadel.App)
      (zTr pTr : List Call) (policy : Cloudflare.AccessPolicy),
      app.deletionTimestampIsZero = true →
      app.finalizers.contains finalizerName = true →
      (∀ u, k.statusUpdate u = .ok ()) →
      z.getProjectByName app.spec.access.project = .ok (some project) →
      z.listProjectRoles project.id = .ok existingRoles →
      firstMissingRole app.spec.access.roles
        (existingRoles.map Zitadel.Role.key) = none →
      reconcileZitadelApp z app project.id = (zTr, .ok (oidcApp, "")) →
      app.status.accessApplicationID ≠ "" →
      cf.updateAccessApp app.status.accessApplicationID app.name app.spec.host
        cfg.sessionDuration = .ok () →
      upsertAccessPolicy cf app.status.accessApplicationID
        app.status.accessPolicyID (rulesOf cfg app) = (pTr, .ok policy) →
      k.writeIngress (buildIngress app) = .ok () →
      (Reconcile cfg z cf k app).result = .done
      ∧ (Reconcile cfg z cf k app).err = none
      ∧ (Reconcile cfg z cf k app).app.status.projectID = project.id
      ∧ (Reconcile cfg z cf k app).app.status.zitadelAppID = oidcApp.id
      ∧ (Reconcile cfg z cf k app).app.status.clientID = oidcApp.clientID
      ∧ (Reconcile cfg z cf k app).app.status.accessApplicationID
          = app.status.accessApplicationID
      ∧ (Reconcile cfg z cf k app).app.status.accessPolicyID = policy.id
      ∧ (Reconcile cfg z cf k app).app.status.ready = true
      ∧ ReadyCond (Reconcile cfg z cf k app).app
          = some ⟨"Ready", true, "Reconciled", "All resources are up to date"⟩) := by
  constructor
  · intro cfg z cf k app hlive hupd hsu
    by_cases hfin : app.finalizers.contains finalizerName = true
    · rw [reconcile_live cfg z cf k app hlive hfin]
      exact projectPhase_dichot cfg z cf k app hsu
    · have hfin' : app.finalizers.contains finalizerName = false := by
        cases h : app.finalizers.contains finalizerName
        · rfl
        · exact absurd h hfin
      simp only [Reconcile, hlive, hfin', if_true, Bool.false_eq_true,
        if_false, hupd]
      exact projectPhase_dichot cfg z cf k _ hsu
  · intro cfg z cf k app project existingRoles oidcApp zTr pTr policy
      hlive hfin hsu hproj hroles hmiss hz haid hcfupd hpol hwi
    have hchain : Reconcile cfg z cf k app
        = setCondition k
            { app with status :=
              { app.status with
                projectID := project.id
                zitadelAppID := oidcApp.id
                clientID := oidcApp.clientID
                accessApplicationID := app.status.accessApplicationID
                accessPolicyID := policy.id
                ready := true } }
            true "Reconciled" "All resources are up to date"
            (zTr ++ [.cfUpdateAccessApp app.status.accessApplicationID app.name
              app.spec.host cfg.sessionDuration] ++ pTr
              ++ [.ingressWrite (buildIngress app)]) := by
      rw [reconcile_pinned_to_oidc cfg z cf k app project existingRoles hlive
        hfin hproj hroles hmiss]
      rw [oidcPhase_pinned cfg z cf k app project oidcApp zTr hz]
      rw [accessAppPhase_known cfg cf k app project oidcApp zTr haid]
      rw [accessAppConverge_update cfg cf k app project oidcApp _ _ haid hcfupd]
      rw [policyPhase_pinned cfg cf k app project oidcApp _ pTr policy _ hpol]
      rw [ingressPhase_success k app project oidcApp _ policy.id _ hwi]
    rw [hchain, setCondition_true_eq _ _ _ _ _ hsu]
    exact ⟨rfl, rfl, rfl, rfl, rfl, rfl, rfl, rfl,
      readyCond_setStatusCondition _ _ _ _⟩

/-- Witness for C6: the dichotomy at the first-pass fixture, and the
success shape with persisted identifiers at the steady-state fixture. -/
theorem claim6_witness :
    (SuccessOutcome (Reconcile cfgEx zEnvEx cfEnvEx kEnvEx appEx)
      ∨ FailureOutcome (Reconcile cfgEx zEnvEx cfEnvEx kEnvEx appEx))
    ∧ (Reconcile cfgEx zEnvEx cfEnvEx kEnvEx appSteady).result = .done
    ∧ ReadyCond (Reconcile cfgEx zEnvEx cfEnvEx kEnvEx appSteady).app
        = some ⟨"Ready", true, "Reconciled", "All resources are up to date"⟩ := by
  have hB := claim6_status_surface.2 cfgEx zEnvEx cfEnvEx kEnvEx appSteady
    ⟨"p1", "infra"⟩ [⟨"admin", "Admin"⟩] ⟨"z1", "client1", ""⟩
    [Call.zUpdateApp "p1" "z1" (buildAppConfig appSteady)]
    [Call.cfUpdatePolicy "a1" "pol1" (policyBodyOf cfgEx appSteady)] ⟨"pol1"⟩
    rfl rfl (fun _ => rfl) rfl rfl rfl rfl (by decide) rfl rfl rfl
  exact ⟨claim6_status_surface.1 cfgEx zEnvEx cfEnvEx kEnvEx appEx rfl
      (fun _ => rfl) (fun _ => rfl),
    hB.1, hB.2.2.2.2.2.2.2.2⟩
